import Mathlib

/-!
Verification of the dfc Dockerfile-conversion engine.

This file gives a shallow embedding, in Lean 4, of the parsing, shell-command
analysis, and rewrite/serialization code of the dfc repository, and proves or
refutes the specification claims about it.

Strings are modelled as `List Char` (`GoStr`); the inputs exercised here are
ASCII, on which Go's byte-oriented string functions and the Lean character
lists agree.  Every Go helper used by the embedded functions is itself
embedded below (`GoLib`), with structural recursion only, so that every
definition evaluates inside the kernel.

Naming: Go identifiers are kept wherever the development's lexical
conventions allow; the few renamings (for example `pref` for the Go field
`Prefix`, `hasPref` for `strings.HasPrefix`) are noted next to the
definitions.
-/

/-- Go string, modelled as a list of characters (ASCII inputs). -/
abbrev GoStr := List Char

namespace GoLib

/-- Model of `strings.HasPrefix s p`. -/
def hasPref (s p : GoStr) : Bool := p.isPrefixOf s

/-- Model of `strings.HasSuffix s suf`. -/
def hasSuf (s suf : GoStr) : Bool := suf.reverse.isPrefixOf s.reverse

/-- Model of `strings.Contains s sub`. -/
def containsStr : GoStr → GoStr → Bool
  | s, sub =>
    if sub.isPrefixOf s then true
    else match s with
      | [] => false
      | _ :: t => containsStr t sub

/-- Model of `strings.Index s sub` (position of first occurrence), as an
`Option Nat`; `none` corresponds to Go's `-1`. -/
def idxOf : GoStr → GoStr → Option Nat
  | s, sub =>
    if sub.isPrefixOf s then some 0
    else match s with
      | [] => none
      | _ :: t => (idxOf t sub).map (· + 1)

/-- Character set trimmed by `strings.TrimSpace` (the ASCII part of
`unicode.IsSpace`). -/
def isGoSpace (c : Char) : Bool :=
  c = ' ' ∨ c = '\t' ∨ c = '\n' ∨ c = '\x0b' ∨ c = '\x0c' ∨ c = '\r'

/-- Model of `strings.TrimSpace`. -/
def trimSpace (s : GoStr) : GoStr :=
  ((s.dropWhile isGoSpace).reverse.dropWhile isGoSpace).reverse

/-- Model of `strings.TrimLeft s cutset` for a cutset given as a char list. -/
def trimLeftCut (s : GoStr) (cut : List Char) : GoStr :=
  s.dropWhile (fun c => cut.contains c)

/-- Model of `strings.TrimRightFunc s f`. -/
def trimRightF (s : GoStr) (f : Char → Bool) : GoStr :=
  (s.reverse.dropWhile f).reverse

/-- Model of `strings.TrimSuffix s suf` (drops one copy of the suffix when
present). -/
def trimSuffixStr (s suf : GoStr) : GoStr :=
  if hasSuf s suf then s.take (s.length - suf.length) else s

/-- Model of `strings.TrimRight s cutset`. -/
def trimRightCut (s : GoStr) (cut : List Char) : GoStr :=
  (s.reverse.dropWhile (fun c => cut.contains c)).reverse

/-- Model of `strings.Split s (String.singleton c)`: split at every occurrence
of the one-character separator; the empty string yields `[[]]` as in Go. -/
def splitOnCh (c : Char) : GoStr → List GoStr
  | [] => [[]]
  | x :: xs =>
    if x = c then [] :: splitOnCh c xs
    else match splitOnCh c xs with
      | [] => [[x]]
      | h :: t => (x :: h) :: t

/-- Model of `strings.SplitN s sep 2` for a one-character separator: a list of
one or two pieces. -/
def splitN2 (c : Char) : GoStr → List GoStr
  | [] => [[]]
  | x :: xs =>
    if x = c then [[], xs]
    else match splitN2 c xs with
      | [] => [[x]]
      | h :: t => (x :: h) :: t

/-- Model of `strings.Fields` (split around runs of white space). -/
def fieldsGo : GoStr → GoStr → List GoStr
  | cur, [] => if cur = [] then [] else [cur.reverse]
  | cur, x :: xs =>
    if isGoSpace x then
      if cur = [] then fieldsGo [] xs else cur.reverse :: fieldsGo [] xs
    else fieldsGo (x :: cur) xs

/-- Entry point for `strings.Fields`. -/
def fields (s : GoStr) : List GoStr := fieldsGo [] s

/-- Model of `strings.Join l sep`. -/
def joinStr (sep : GoStr) : List GoStr → GoStr
  | [] => []
  | [x] => x
  | x :: xs => x ++ sep ++ joinStr sep xs

/-- Model of `strings.Repeat s n`. -/
def repeatStr (s : GoStr) : Nat → GoStr
  | 0 => []
  | n + 1 => s ++ repeatStr s n

/-- ASCII uppercase map, the fragment of `strings.ToUpper` exercised here. -/
def toUpperGo (s : GoStr) : GoStr :=
  s.map (fun c => if 'a' ≤ c ∧ c ≤ 'z' then Char.ofNat (c.toNat - 32) else c)

/-- Fuel-driven worker for `strings.Replace s old new -1`; the fuel is an
upper bound on the number of scanning steps, each of which consumes at least
one character of `s` (call sites always pass a non-empty `old`). -/
def replaceAllF : Nat → GoStr → GoStr → GoStr → GoStr
  | 0, s, _, _ => s
  | _ + 1, [], _, _ => []
  | f + 1, s@(x :: xs), old, new =>
    if old ≠ [] ∧ old.isPrefixOf s then new ++ replaceAllF f (s.drop old.length) old new
    else x :: replaceAllF f xs old new

/-- Model of `strings.ReplaceAll s old new` for non-empty `old`. -/
def replaceAll (s old new : GoStr) : GoStr := replaceAllF (s.length + 1) s old new

/-- Model of `strings.Replace s old new 1` (first occurrence only). -/
def replaceOne : GoStr → GoStr → GoStr → GoStr
  | [], _, _ => []
  | s@(x :: xs), old, new =>
    if old ≠ [] ∧ old.isPrefixOf s then new ++ s.drop old.length
    else x :: replaceOne xs old new

/-- Fuel-driven model of a Go `for cond(s) { s = step(s) }` loop over a
string; every loop modelled this way strictly shrinks the string, so the
string length bounds the iteration count. -/
def goWhile : Nat → (GoStr → Bool) → (GoStr → GoStr) → GoStr → GoStr
  | 0, _, _, s => s
  | f + 1, cond, step, s => if cond s then goWhile f cond step (step s) else s

/-- Model of the Go loop `for strings.Contains(s, "  ") { s = ReplaceAll(s, "  ", " ") }`. -/
def collapseDoubleSpaces (s : GoStr) : GoStr :=
  goWhile (s.length + 1) (fun t => containsStr t [' ', ' '])
    (fun t => replaceAll t [' ', ' '] [' ']) s

/-- Model of `strings.Split s sep` for a multi-character separator (fuel-driven
scan; used for `strings.Split(rawCmdStr, "&&")`). -/
def splitOnStrF : Nat → GoStr → GoStr → GoStr → List GoStr
  | 0, acc, _, _ => [acc.reverse]
  | _ + 1, acc, [], _ => [acc.reverse]
  | f + 1, acc, s@(x :: xs), sep =>
    if sep ≠ [] ∧ sep.isPrefixOf s then acc.reverse :: splitOnStrF f [] (s.drop sep.length) sep
    else splitOnStrF f (x :: acc) xs sep

/-- Entry point for the multi-character `strings.Split`. -/
def splitOnStr (sep s : GoStr) : List GoStr := splitOnStrF (s.length + 1) [] s sep

end GoLib

/-!
Embedding of `internal/shellparse2/command.go`.

The Go code links `Node` values through `Prev`/`Next` pointers; the chain is
modelled here as a `List Node` in chain order, so pointer surgery becomes
list surgery.  The Go field `Prefix` is called `pref` here and `LineBreak`
is `lineBrk`; everything else keeps its source name (lower-cased).
-/

namespace SP2

open GoLib

/-- Model of `shellparse2.NodeType`. -/
inductive NodeType where
  | command
  | operator
  | text
deriving DecidableEq, Repr

/-- Model of `shellparse2.Node` (without the `Prev`/`Next` pointers, which
are represented by list order, and with `Prefix` renamed to `pref`). -/
structure Node where
  typ : NodeType := .text
  command : GoStr := []
  args : List GoStr := []
  parts : List GoStr := []
  raw : GoStr := []
  indent : GoStr := []
  lineBrk : GoStr := []
  pref : GoStr := []
  suf : GoStr := []
deriving DecidableEq, Repr

/-- Model of `shellparse2.ShellCommand`; `rootNode` is the node chain. -/
structure ShellCommand where
  rootNode : List Node := []
  raw : GoStr := []
deriving DecidableEq, Repr

/-- Model of `shellparse2.isWhitespace`. -/
def isWhitespace (c : Char) : Bool := c = ' ' ∨ c = '\t'

/-- Worker for `splitByOperators`: one step per input character, carrying the
current chunk, the quoting state, and the escape flag.  The Go code only
recognises `&&`, `||` (two-character lookahead) and `;` when a further
character exists (`i < len(cmd)-1`).  The fuel counts the remaining scan
steps; it is initialised to the input length, and every step consumes at
least one character. -/
def splitByOpsGo : Nat → GoStr → GoStr → Bool → Char → Bool → List GoStr
  | 0, s, current, _, _, _ =>
    if current ++ s ≠ [] then [current ++ s] else []
  | _ + 1, [], current, _, _, _ => if current ≠ [] then [current] else []
  | f + 1, c :: rest, current, inQuote, quoteChar, escaped =>
    if escaped then splitByOpsGo f rest (current ++ [c]) inQuote quoteChar false
    else if c = '\\' then splitByOpsGo f rest (current ++ [c]) inQuote quoteChar true
    else if c = '"' ∨ c = '\'' then
      if inQuote ∧ quoteChar = c then splitByOpsGo f rest (current ++ [c]) false quoteChar false
      else if ¬inQuote then splitByOpsGo f rest (current ++ [c]) true c false
      else splitByOpsGo f rest (current ++ [c]) inQuote quoteChar false
    else if ¬inQuote ∧ rest ≠ [] then
      if c = '&' ∧ rest.headD ' ' = '&' then
        (if current ≠ [] then [current] else []) ++
          ['&', '&'] :: splitByOpsGo f rest.tail [] inQuote quoteChar false
      else if c = '|' ∧ rest.headD ' ' = '|' then
        (if current ≠ [] then [current] else []) ++
          ['|', '|'] :: splitByOpsGo f rest.tail [] inQuote quoteChar false
      else if c = ';' then
        (if current ≠ [] then [current] else []) ++
          [';'] :: splitByOpsGo f rest [] inQuote quoteChar false
      else splitByOpsGo f rest (current ++ [c]) inQuote quoteChar false
    else splitByOpsGo f rest (current ++ [c]) inQuote quoteChar false

/-- Model of `shellparse2.splitByOperators`. -/
def splitByOperators (cmd : GoStr) : List GoStr :=
  splitByOpsGo (cmd.length + 1) cmd [] false ' ' false

/-- Model of `shellparse2.isOperator`. -/
def isOperator (s : GoStr) : Bool := s = ['&', '&'] ∨ s = ['|', '|'] ∨ s = [';']

/-- Per-line worker for `processCommand`: walks the `strings.Split(cmd,"\n")`
pieces accumulating the actual command text, the indentation, and the line
breaks.  The flag says whether the current line is the first one (`i = 0`). -/
def processCmdLines : Bool → List GoStr → GoStr × GoStr × GoStr
  | _, [] => ([], [], [])
  | first, line :: rest =>
    let trimmed := trimSpace line
    let indentHere : GoStr := if first then [] else line.takeWhile isWhitespace
    let brkHere : GoStr := if first then [] else ['\n']
    let actHere : GoStr :=
      if rest ≠ [] ∧ hasSuf trimmed ['\\'] then trimmed.dropLast ++ [' '] else trimmed
    let (act, ind, brk) := processCmdLines false rest
    (actHere ++ act, indentHere ++ ind, brkHere ++ brk)

/-- Model of `shellparse2.processCommand`, returning
`(actualCmd, indent, lineBreak, prefix)`. -/
def processCommand (cmd : GoStr) : GoStr × GoStr × GoStr × GoStr :=
  let prefPart := cmd.takeWhile isWhitespace
  let (act, ind, brk) := processCmdLines true (splitOnCh '\n' cmd)
  (act, ind, brk, prefPart)

/-- Model of `shellparse2.splitCommand` (token split respecting quotes and
escapes; separators are space and tab outside quotes). -/
def splitCmdGo : GoStr → GoStr → Bool → Char → Bool → List GoStr
  | [], current, _, _, _ => if current ≠ [] then [current] else []
  | c :: rest, current, inQuote, quoteChar, escaped =>
    if escaped then splitCmdGo rest (current ++ [c]) inQuote quoteChar false
    else if c = '\\' then splitCmdGo rest (current ++ [c]) inQuote quoteChar true
    else if c = '"' ∨ c = '\'' then
      if inQuote ∧ quoteChar = c then splitCmdGo rest (current ++ [c]) false quoteChar false
      else if ¬inQuote then splitCmdGo rest (current ++ [c]) true c false
      else splitCmdGo rest (current ++ [c]) inQuote quoteChar false
    else if ¬inQuote ∧ isWhitespace c then
      (if current ≠ [] then [current] else []) ++ splitCmdGo rest [] inQuote quoteChar false
    else splitCmdGo rest (current ++ [c]) inQuote quoteChar false

/-- Entry point matching `shellparse2.splitCommand`. -/
def splitCommand (cmd : GoStr) : List GoStr := splitCmdGo cmd [] false ' ' false

/-- Builder for one command node of `shellparse2.(*ShellCommand).parse`:
processes continuations/indentation and fills `command`/`args`/`parts` when
the trimmed actual command is non-empty. -/
def mkCommandNode (part : GoStr) : Node :=
  let (act₀, indent, lineBreak, prefPart) := processCommand part
  let actualCmd := trimSpace act₀
  let base : Node := { typ := .command, raw := part, indent := indent, lineBrk := lineBreak, pref := prefPart }
  if actualCmd ≠ [] then
    match splitCommand actualCmd with
    | [] => base
    | c :: rest => { base with command := c, args := rest, parts := c :: rest }
  else base

/-- Model of `shellparse2.(*ShellCommand).parse`: split by operators and build
the node chain; an empty split yields the single `NodeText` node holding the
whole raw text. -/
def parseSC (cmd : GoStr) : List Node :=
  let parts := splitByOperators cmd
  if parts = [] then [{ typ := .text, raw := cmd }]
  else parts.map (fun part =>
    if isOperator part then { typ := .operator, raw := part }
    else mkCommandNode part)

/-- Model of `shellparse2.NewShellCommand`. -/
def NewShellCommand (cmd : GoStr) : ShellCommand :=
  { raw := cmd, rootNode := parseSC cmd }

/-- Model of `FindCommandsByPrefix` from `shellparse2` (renamed for the
development's lexical conventions). -/
def findCmdsByPref (sc : ShellCommand) (p : GoStr) : List Node :=
  sc.rootNode.filter (fun n => n.typ = .command ∧ hasPref n.command p)

/-- Model of `FindCommandsByPrefixAndSubcommand` from `shellparse2`. -/
def findCmdsByPrefSub (sc : ShellCommand) (p sub : GoStr) : List Node :=
  sc.rootNode.filter (fun n =>
    n.typ = .command ∧ hasPref n.command p ∧ n.args ≠ [] ∧ n.args.headD [] = sub)

/-- Matching test used by `ReplaceCommand` and `RemoveCommand`: same type,
same command, same space-joined argument list. -/
def nodeMatches (n node : Node) : Bool :=
  n.typ = node.typ ∧ n.command = node.command ∧
    joinStr [' '] n.args = joinStr [' '] node.args

/-- Field update applied by `ReplaceCommand` to the matched node.  When the
original raw text spans several lines the Go code sets `Raw` to the bare new
command (its indentation computation is dead code); otherwise it re-attaches
the recorded whitespace. -/
def replaceNodeFields (n : Node) (newCmd : GoStr) : Node :=
  let n' :=
    match splitCommand newCmd with
    | [] => n
    | c :: rest => { n with command := c, args := rest, parts := c :: rest }
  if containsStr n.raw ['\n'] then { n' with raw := newCmd }
  else { n' with raw := n.pref ++ newCmd ++ n.lineBrk }

/-- Worker replacing the first matching node. -/
def replaceFirst : List Node → Node → GoStr → List Node
  | [], _, _ => []
  | n :: ns, node, newCmd =>
    if nodeMatches n node then replaceNodeFields n newCmd :: ns
    else n :: replaceFirst ns node newCmd

/-- Model of `shellparse2.(*ShellCommand).ReplaceCommand`. -/
def ReplaceCommand (sc : ShellCommand) (node : Node) (newCmd : GoStr) : ShellCommand :=
  { sc with rootNode := replaceFirst sc.rootNode node newCmd }

/-- Worker removing the first matching node; `prev` is the node before the
cursor (the Go `Prev` pointer).  When the removed node follows an operator,
its `pref` whitespace is transferred to the next node. -/
def removeFirst : Option Node → List Node → Node → List Node
  | _, [], _ => []
  | prev, n :: ns, node =>
    if nodeMatches n node then
      match prev, ns with
      | some p, next :: rest =>
        if p.typ = .operator then { next with pref := n.pref } :: rest else ns
      | _, _ => ns
    else n :: removeFirst (some n) ns node

/-- Model of `shellparse2.(*ShellCommand).RemoveCommand`. -/
def RemoveCommand (sc : ShellCommand) (node : Node) : ShellCommand :=
  { sc with rootNode := removeFirst none sc.rootNode node }

/-- Model of `shellparse2.(*ShellCommand).String`. -/
def scString (sc : ShellCommand) : GoStr :=
  sc.rootNode.foldl (fun acc n =>
    match n.typ with
    | .command =>
      if n.parts ≠ [] then acc ++ n.pref ++ n.indent ++ joinStr [' '] n.parts ++ n.lineBrk
      else acc ++ n.raw
    | _ => acc ++ n.raw) []

/-- Worker for `ExtractPackagesFromInstallCommand`: the Go loop over
`node.Args` with its running index.  The Go source increments the range
variable `i` in the `HasSuffix(arg, "=")` branch, which has no effect on a
`range` loop, so that branch is a plain skip. -/
def extractPkgsGo : Nat → Nat → List GoStr → List GoStr
  | _, _, [] => []
  | i, total, arg :: rest =>
    if i < 2 then extractPkgsGo (i + 1) total rest
    else if hasPref arg ['-'] then extractPkgsGo (i + 1) total rest
    else if hasSuf arg ['='] ∧ i + 1 < total then extractPkgsGo (i + 1) total rest
    else if ¬containsStr arg ['='] ∧ ¬hasPref arg ['$'] then
      arg :: extractPkgsGo (i + 1) total rest
    else extractPkgsGo (i + 1) total rest

/-- Model of `shellparse2.ExtractPackagesFromInstallCommand`. -/
def ExtractPackagesFromInstallCommand (node : Node) : List GoStr :=
  extractPkgsGo 0 node.args.length node.args

end SP2

/-!
Embedding of the dfc package: data model (`pkg/dfc/dfc.go`), the
`ParseDockerfile` pipeline and its helpers, and the serializer
`Dockerfile.String`.  The Go field `From` is called `fromD` (`from` is a
Lean keyword) and `Alias` is `aliasN`.
-/

namespace Dfc

open GoLib SP2

/-- Left curly brace character, written via its code point to satisfy the
development's lexical conventions for brace literals. -/
def braceL : Char := Char.ofNat 123

/-- Model of `dfc.FromDetails`. -/
structure FromDetails where
  base : GoStr := []
  tag : GoStr := []
  aliasN : GoStr := []
  parent : Nat := 0
  baseDynamic : Bool := false
  tagDynamic : Bool := false
deriving DecidableEq, Repr

/-- Model of `dfc.RunDetails` (the unexported `command` pointer is carried as
a value; aliasing questions are treated separately for claim C4). -/
structure RunDetails where
  distro : GoStr := []
  packages : List GoStr := []
  command : ShellCommand := {}
deriving DecidableEq, Repr

/-- Model of `dfc.DockerfileLine`. -/
structure DockerfileLine where
  raw : GoStr := []
  extra : GoStr := []
  directive : GoStr := []
  stage : Nat := 0
  fromD : Option FromDetails := none
  run : Option RunDetails := none
deriving DecidableEq, Repr

/-- Model of `dfc.Dockerfile`; `stageAliases` is the key set of the Go
`map[string]bool` (only membership is ever consulted). -/
structure Dockerfile where
  lines : List DockerfileLine := []
  stageAliases : List GoStr := []
deriving DecidableEq, Repr

/-- Model of `dfc.AllPackageManagers` (order is the Go slice order). -/
def AllPackageManagers : List GoStr :=
  ["apt-get".data, "apt".data, "yum".data, "dnf".data, "microdnf".data, "apk".data]

/-- Model of `dfc.PackageManagerInfoMap`: manager to (distro, install
keyword); a missing key yields Go's zero value `("", "")`. -/
def pmInfo (pm : GoStr) : GoStr × GoStr :=
  if pm = "apt-get".data ∨ pm = "apt".data then ("debian".data, "install".data)
  else if pm = "yum".data ∨ pm = "dnf".data ∨ pm = "microdnf".data then ("fedora".data, "install".data)
  else if pm = "apk".data then ("alpine".data, "add".data)
  else ([], [])

/-- Model of the `dfc.PackageManagerGroups` lookup; `none` is Go's
`exists = false`. -/
def packageManagerGroups (d : GoStr) : Option (List GoStr) :=
  if d = "debian".data then some ["apt-get".data, "apt".data]
  else if d = "fedora".data then some ["yum".data, "dnf".data, "microdnf".data]
  else if d = "alpine".data then some ["apk".data]
  else none

/-- The `PackageManagerGroups` map as a list of (distro, managers) pairs.
Go iterates this map in an unspecified order; the fixed order used here is
harmless for every theorem below because each evaluated input triggers at
most one group (the bodies are guarded by `strings.Contains` tests that
fail for all other managers). -/
def pmGroupsList : List (GoStr × List GoStr) :=
  [("debian".data, ["apt-get".data, "apt".data]),
   ("fedora".data, ["yum".data, "dnf".data, "microdnf".data]),
   ("alpine".data, ["apk".data])]

/-- All managers of all groups, flattened in the `pmGroupsList` order. -/
def allGroupManagers : List GoStr := (pmGroupsList.map Prod.snd).flatten

/-- White-space class of RE2's `\s` (`[\t\n\f\r ]`). -/
def isWsRE (c : Char) : Bool :=
  c = ' ' ∨ c = '\t' ∨ c = '\n' ∨ c = '\x0c' ∨ c = '\r'

/-- Single match attempt, at the start of `s`, for the Go pattern
`(?i)(\s+AS\s+)(.+)$` used by `parseFromDirective`.  Returns the offset of
the second capture group (the alias text) from the start of `s`.  The
leftmost-first semantics of the Go engine reduce, for this pattern, to:
a maximal white-space run, the letters `AS` case-insensitively, a maximal
white-space run, and a non-empty newline-free remainder — except that when
the remainder is empty the second `\s+` gives back its last character
(which must not be a newline) to satisfy `(.+)$`. -/
def attemptAS (s : GoStr) : Option Nat :=
  let w := (s.takeWhile isWsRE).length
  if w = 0 then none
  else match s.drop w with
    | a :: b :: rest2 =>
      if (a = 'A' ∨ a = 'a') ∧ (b = 'S' ∨ b = 's') then
        let v := (rest2.takeWhile isWsRE).length
        if v = 0 then none
        else
          let rem := rest2.drop v
          if rem ≠ [] ∧ ¬rem.contains '\n' then some (w + 2 + v)
          else if rem = [] ∧ v ≥ 2 ∧ rest2.getD (v - 1) ' ' ≠ '\n' then some (w + 2 + v - 1)
          else none
      else none
    | _ => none

/-- Leftmost-match scan for the `(?i)(\s+AS\s+)(.+)$` pattern; returns
`(asStart, aliasStart)`, the Go `matches[2]` and `matches[4]` indices. -/
def findASGo : Nat → GoStr → Option (Nat × Nat)
  | i, s =>
    match attemptAS s with
    | some off => some (i, i + off)
    | none => match s with
      | [] => none
      | _ :: t => findASGo (i + 1) t

/-- Entry point for the `reAS` regular expression of `parseFromDirective`. -/
def findASIdx (s : GoStr) : Option (Nat × Nat) := findASGo 0 s

/-- Model of `dfc.parseFromDirective` (part_018). -/
def parseFromDirective (content : GoStr) : FromDetails :=
  let (alias₁, content₁) :=
    match findASIdx content with
    | some (asStart, aliasStart) =>
      (trimSpace (content.drop aliasStart), trimSpace (content.take asStart))
    | none => ([], content)
  let imageParts := splitOnCh ':' content₁
  let base := trimSpace (imageParts.headD [])
  let (tag₁, alias₂) :=
    if imageParts.length > 1 then
      let tag₀ := trimSpace (imageParts.getD 1 [])
      match findASIdx tag₀ with
      | some (asStart, aliasStart) =>
        (trimSpace (tag₀.take asStart), trimSpace (tag₀.drop aliasStart))
      | none => (tag₀, alias₁)
    else ([], alias₁)
  { base := base, tag := tag₁, aliasN := alias₂,
    baseDynamic := containsStr base ['$', braceL] ∨ containsStr base ['$'],
    tagDynamic := containsStr tag₁ ['$', braceL] ∨ containsStr tag₁ ['$'] }

/-- Recognised directive keywords of `dfc.parseDockerfileLine`. -/
def validDirectives : List GoStr :=
  ["FROM".data, "RUN".data, "CMD".data, "LABEL".data, "EXPOSE".data, "ENV".data,
   "ADD".data, "COPY".data, "ENTRYPOINT".data, "VOLUME".data, "USER".data,
   "WORKDIR".data, "ARG".data, "ONBUILD".data, "STOPSIGNAL".data,
   "HEALTHCHECK".data, "SHELL".data, "MAINTAINER".data]

/-- Model of `dfc.parseDockerfileLine`; `none` is the Go `nil` return. -/
def parseDockerfileLine (line : GoStr) : Option DockerfileLine :=
  let trimmed := trimSpace line
  if trimmed = [] ∨ hasPref trimmed ['#'] then none
  else
    let parts := splitN2 ' ' trimmed
    let directive := toUpperGo (parts.headD [])
    if ¬validDirectives.contains directive then none
    else
      let dfLine : DockerfileLine := { raw := line, directive := directive }
      if directive = "FROM".data ∧ parts.length > 1 then
        some { dfLine with fromD := some (parseFromDirective (parts.getD 1 [])) }
      else some dfLine

/-- Worker for `dfc.cleanupCommandContent`: accumulates the current command
across continuation lines. -/
def cleanupGo : GoStr → List GoStr → List GoStr
  | cur, [] => if cur ≠ [] then [cur] else []
  | cur, line :: rest =>
    let t := trimSpace line
    if t = [] ∨ hasPref t ['#'] then cleanupGo cur rest
    else if hasPref t ['&', '&'] ∨ hasPref t ['|', '|'] ∨ hasPref t [';'] then
      cleanupGo (cur ++ [' '] ++ t) rest
    else if hasSuf t ['\\'] then
      let t' := trimSuffixStr t ['\\']
      if cur = [] then cleanupGo t' rest else cleanupGo (cur ++ [' '] ++ t') rest
    else
      if cur ≠ [] then cur :: cleanupGo t rest else cleanupGo t rest

/-- Model of `dfc.cleanupCommandContent`. -/
def cleanupCommandContent (content : GoStr) : GoStr :=
  joinStr [' '] (cleanupGo [] (splitOnCh '\n' content))

/-- Worker for `dfc.deduplicatePackages`. -/
def dedupGo : List GoStr → List GoStr → List GoStr
  | _, [] => []
  | seen, p :: rest =>
    if seen.contains p then dedupGo seen rest else p :: dedupGo (p :: seen) rest

/-- Model of `dfc.deduplicatePackages` (first-seen order). -/
def deduplicatePackages (l : List GoStr) : List GoStr := dedupGo [] l

/-- Model of `dfc.extractRun` (part_018, the `ParseDockerfile` variant);
`none` is the Go `nil` return taken when no package manager is detected. -/
def extractRun (content : GoStr) : Option RunDetails :=
  match idxOf content "RUN ".data with
  | none => some {}
  | some cmdStart =>
    let cmdContent := content.drop (cmdStart + 4)
    let analyzableContent := cleanupCommandContent cmdContent
    let cmd := NewShellCommand cmdContent
    let analyzeCmd := NewShellCommand analyzableContent
    match AllPackageManagers.find? (fun pm => findCmdsByPref analyzeCmd pm ≠ []) with
    | none => none
    | some pm =>
      let info := pmInfo pm
      let installCmds := findCmdsByPrefSub analyzeCmd pm info.2
      let packages := (installCmds.map ExtractPackagesFromInstallCommand).flatten
      let packages := if packages ≠ [] then deduplicatePackages packages else packages
      some { distro := info.1, packages := packages, command := cmd }

/-- Set insertion for the `stageAliases` map (membership semantics of the Go
`map[string]bool`). -/
def insertAlias (aliases : List GoStr) (a : GoStr) : List GoStr :=
  if aliases.contains a then aliases else aliases ++ [a]

/-- Loop state of `dfc.ParseDockerfile`. -/
structure PState where
  lines : List DockerfileLine := []
  stage : Nat := 0
  aliases : List GoStr := []
  curMulti : Option DockerfileLine := none
  multiContent : GoStr := []
  pendingExtra : GoStr := []
  hasExtra : Bool := false
  blankLines : List Nat := []
deriving Repr

/-- Finalisation of a completed multi-line directive: store the accumulated
raw text and, for `RUN`, extract the command details. -/
def finishMulti (ml : DockerfileLine) (mc : GoStr) : DockerfileLine :=
  let ml := { ml with raw := mc }
  if ml.directive = "RUN".data then { ml with run := extractRun ml.raw } else ml

/-- One iteration of the `ParseDockerfile` line loop. -/
def parseStep (lineNum : Nat) (line : GoStr) (s : PState) : PState :=
  let trimmed := trimSpace line
  match s.curMulti with
  | some ml =>
    if hasPref trimmed ['#'] then
      { s with multiContent := s.multiContent ++ ['\n'] ++ line }
    else
      let mc := s.multiContent ++ ['\n'] ++ line
      if ¬hasSuf trimmed ['\\'] then
        { s with
          lines := s.lines ++ [finishMulti ml mc]
          curMulti := none
          multiContent := [] }
      else { s with multiContent := mc }
  | none =>
    if trimmed = [] ∨ hasPref trimmed ['#'] then
      let blankLines := if trimmed = [] then s.blankLines ++ [lineNum] else s.blankLines
      let pendingExtra :=
        if s.hasExtra then s.pendingExtra ++ ['\n'] ++ line else s.pendingExtra ++ line
      { s with blankLines := blankLines, pendingExtra := pendingExtra, hasExtra := true }
    else
      match parseDockerfileLine line with
      | none => s
      | some dfLine₀ =>
        let dfLine₁ :=
          if s.blankLines ≠ [] then
            let extraNewlines := repeatStr ['\n'] s.blankLines.length
            if s.hasExtra then { dfLine₀ with extra := s.pendingExtra ++ extraNewlines }
            else { dfLine₀ with extra := extraNewlines }
          else if s.hasExtra then { dfLine₀ with extra := s.pendingExtra }
          else dfLine₀
        let (stage₁, aliases₁, dfLine₂) :=
          if dfLine₁.directive = "FROM".data then
            let st := s.stage + 1
            let al :=
              match dfLine₁.fromD with
              | some f => if f.aliasN ≠ [] then insertAlias s.aliases f.aliasN else s.aliases
              | none => s.aliases
            (st, al, { dfLine₁ with stage := st })
          else if dfLine₁.directive ≠ [] then (s.stage, s.aliases, { dfLine₁ with stage := s.stage })
          else (s.stage, s.aliases, dfLine₁)
        let s₁ := { s with
          stage := stage₁
          aliases := aliases₁
          pendingExtra := []
          hasExtra := false
          blankLines := [] }
        if hasSuf trimmed ['\\'] then
          { s₁ with curMulti := some dfLine₂, multiContent := line }
        else
          let dfLine₃ :=
            if dfLine₂.directive = "RUN".data then { dfLine₂ with run := extractRun dfLine₂.raw }
            else dfLine₂
          { s₁ with lines := s₁.lines ++ [dfLine₃] }

/-- The `ParseDockerfile` line loop. -/
def parseLoop : Nat → List GoStr → PState → PState
  | _, [], s => s
  | n, l :: ls, s => parseLoop (n + 1) ls (parseStep n l s)

/-- Model of `dfc.ParseDockerfile` (always succeeds; the Go error result is
always `nil`). -/
def ParseDockerfile (content : GoStr) : Dockerfile :=
  let s := parseLoop 1 (splitOnCh '\n' content) {}
  let s :=
    match s.curMulti with
    | some ml => { s with lines := s.lines ++ [finishMulti ml s.multiContent], curMulti := none }
    | none => s
  let lines :=
    if s.hasExtra then
      s.lines ++ [{ raw := [], extra := s.pendingExtra, directive := [], stage := s.stage }]
    else s.lines
  { lines := lines, stageAliases := s.aliases }

/-- The comment-block normalisation of `Dockerfile.String` applied to a
non-empty `Extra` field containing `#`. -/
def renderExtra (extra : GoStr) (isLast : Bool) (rawEmpty : Bool) : GoStr :=
  if containsStr extra ['#'] then
    if isLast ∧ rawEmpty then
      goWhile (extra.length + 1) (fun e => hasSuf e ['\n', '\n']) (fun e => e.dropLast) extra
    else
      let hasBlankAfter := hasSuf extra ['\n', '\n']
      let e := goWhile (extra.length + 1) (fun e => hasSuf e ['\n']) (fun e => e.dropLast) extra
      if hasBlankAfter then e ++ ['\n', '\n'] else e ++ ['\n']
  else extra

/-- Per-line rendering of `Dockerfile.String`; `isLast` is `i = len-1`. -/
def renderLine (line : DockerfileLine) (isLast : Bool) : GoStr :=
  let extraPart :=
    if line.extra ≠ [] then
      let e := renderExtra line.extra isLast (line.raw = [])
      e ++ (if ¬hasSuf e ['\n'] ∧ ¬isLast ∧ line.raw ≠ [] then ['\n'] else [])
    else []
  extraPart ++ line.raw ++ (if ¬isLast then ['\n'] else [])

/-- Worker of `Dockerfile.String` over the line list. -/
def renderLines : List DockerfileLine → GoStr
  | [] => []
  | [l] => renderLine l true
  | l :: rest => renderLine l false ++ renderLines rest

/-- Model of `dfc.(*Dockerfile).String`. -/
def dfString (d : Dockerfile) : GoStr := renderLines d.lines

end Dfc

/-!
Embedding of `internal/shellparse/shell.go` (the `ShellPart`/`ShellCommand`
parser with nested children).  The scanner consumes up to two characters per
step, so it is driven by a fuel counter initialised to the input length;
nested `tokenize` calls receive one unit less fuel, which suffices because
every child text is strictly shorter than its parent.
-/

namespace SP

open GoLib

/-- Model of `shellparse.CommandType`. -/
inductive CommandType where
  | simple
  | parenGroup
  | subshell
  | pipeline
  | commandSubstitution
  | backtickSubstitution
deriving DecidableEq, Repr

/-- Model of `shellparse.ShellPart`; the Go field `Args` is a single string
in this package. -/
structure ShellPart where
  command : GoStr := []
  args : GoStr := []
  rawText : GoStr := []
  delimiter : GoStr := []
  typ : CommandType := .simple
deriving DecidableEq, Repr

/-- Model of `shellparse.ShellCommand` (parts, nested children, original). -/
inductive ShellCommand where
  | mk : List ShellPart → List ShellCommand → GoStr → ShellCommand

/-- Parts accessor. -/
def ShellCommand.parts : ShellCommand → List ShellPart
  | .mk p _ _ => p

/-- Children accessor. -/
def ShellCommand.children : ShellCommand → List ShellCommand
  | .mk _ c _ => c

/-- Original-text accessor. -/
def ShellCommand.original : ShellCommand → GoStr
  | .mk _ _ o => o

/-- Model of `shellparse.tokenizeLine`. -/
def tokenizeLineGo : GoStr → GoStr → Bool → Bool → List GoStr
  | [], current, _, _ => if current ≠ [] then [current] else []
  | '\\' :: d :: rest, current, inS, inD => tokenizeLineGo rest (current ++ ['\\', d]) inS inD
  | c :: rest, current, inS, inD =>
    if c = '"' ∧ ¬inS then tokenizeLineGo rest (current ++ [c]) inS (¬inD)
    else if c = '\'' ∧ ¬inD then tokenizeLineGo rest (current ++ [c]) (¬inS) inD
    else if inS ∨ inD then tokenizeLineGo rest (current ++ [c]) inS inD
    else if c = ' ' ∨ c = '\t' then
      (if current ≠ [] then [current] else []) ++ tokenizeLineGo rest [] inS inD
    else tokenizeLineGo rest (current ++ [c]) inS inD

/-- Entry point for `shellparse.tokenizeLine`. -/
def tokenizeLine (line : GoStr) : List GoStr := tokenizeLineGo line [] false false

/-- Model of `shellparse.parseCommand`: fills `command` and `args` of a part
from its raw text. -/
def parseCommand (part : ShellPart) : ShellPart :=
  if part.rawText = [] then part
  else
    let trimmed := trimSpace part.rawText
    if trimmed = [] then part
    else if part.typ = .parenGroup ∨ part.typ = .commandSubstitution then part
    else
      let tokens := tokenizeLine trimmed
      if tokens = [] then part
      else
        let cmdIndex := (tokens.findIdx? (fun t => ¬containsStr t ['='])).getD 0
        if cmdIndex ≥ tokens.length then part
        else
          let command := tokens.getD cmdIndex []
          let part := { part with command := command }
          if cmdIndex + 1 < tokens.length then
            let argsStart := ((idxOf trimmed command).getD 0) + command.length
            if argsStart < trimmed.length then
              let args := trimLeftCut (trimmed.drop argsStart) [' ', '\t']
              let args := trimRightF args (fun r => r = '\\' ∨ r = ' ' ∨ r = '\t' ∨ r = '\n')
              { part with args := args }
            else part
          else part

/-- Model of `shellparse.isInSingleQuotes`. -/
def isInSingleQuotesGo : GoStr → Bool → Bool
  | [], inS => inS
  | ['\\'], inS => inS
  | '\\' :: _ :: rest, inS => isInSingleQuotesGo rest inS
  | '\'' :: rest, inS => isInSingleQuotesGo rest (¬inS)
  | _ :: rest, inS => isInSingleQuotesGo rest inS

/-- Model of `shellparse.isInSingleQuotes content start pos` (scan of the
slice between the two positions). -/
def isInSingleQuotes (content : GoStr) (start pos : Nat) : Bool :=
  isInSingleQuotesGo ((content.take pos).drop start) false

/-- Model of `shellparse.findBacktickSubstitutions` (start/end index pairs). -/
def findBackticksGo : Nat → GoStr → Bool → Bool → Option Nat → List (Nat × Nat)
  | _, [], _, _, _ => []
  | i, '\\' :: _ :: rest, inS, inD, bt => findBackticksGo (i + 2) rest inS inD bt
  | i, c :: rest, inS, inD, bt =>
    if c = '"' ∧ ¬inS then findBackticksGo (i + 1) rest inS (¬inD) bt
    else if c = '\'' ∧ ¬inD then findBackticksGo (i + 1) rest (¬inS) inD bt
    else if c = '`' ∧ ¬inS then
      match bt with
      | none => findBackticksGo (i + 1) rest inS inD (some i)
      | some s => (s, i) :: findBackticksGo (i + 1) rest inS inD none
    else findBackticksGo (i + 1) rest inS inD bt

/-- Inner scan of `findDollarParenSubstitutions`: finds the closing
parenthesis, tracking nesting and the quirky `isInSingleQuotes` calls of the
Go code.  Returns the absolute index of the closing parenthesis. -/
def dollarParenClose (content : GoStr) (start : Nat) : Nat → GoStr → Nat → Option Nat
  | _, [], _ => none
  | j, '\\' :: _ :: rest, nesting => dollarParenClose content start (j + 2) rest nesting
  | j, c :: rest, nesting =>
    if c = '(' ∧ ¬isInSingleQuotes content start j then
      dollarParenClose content start (j + 1) rest (nesting + 1)
    else if c = ')' ∧ ¬isInSingleQuotes content start j then
      if nesting = 1 then some j
      else dollarParenClose content start (j + 1) rest (nesting - 1)
    else dollarParenClose content start (j + 1) rest nesting

/-- Outer scan of `findDollarParenSubstitutions`.  After a terminated
substitution the Go loop resumes just past the closing parenthesis; on an
unterminated `$(` it resumes at `start + 3`.  Because of those jumps the scan
is fuel-driven (the fuel is the input length; every step advances the index
by at least one). -/
def findDollarParenGo (content : GoStr) : Nat → Nat → Bool → List (Nat × Nat)
  | 0, _, _ => []
  | f + 1, i, inS =>
    match content.drop i with
    | [] => []
    | '\\' :: _ :: _ => findDollarParenGo content f (i + 2) inS
    | '\'' :: _ => findDollarParenGo content f (i + 1) (¬inS)
    | '$' :: '(' :: _ =>
      if ¬inS then
        match dollarParenClose content i (i + 2) (content.drop (i + 2)) 1 with
        | some j => (i, j) :: findDollarParenGo content f (j + 1) inS
        | none => findDollarParenGo content f (i + 3) inS
      else findDollarParenGo content f (i + 1) inS
    | _ :: _ => findDollarParenGo content f (i + 1) inS

/-- Model of `shellparse.findCommandSubstitutions`, reduced to the only data
the callers use: the inner text of each substitution, backticks first, then
`$(...)` spans, each in scan order. -/
def findCommandSubstitutions (content : GoStr) : List GoStr :=
  (findBackticksGo 0 content false false none).map
      (fun p => (content.take p.2).drop (p.1 + 1)) ++
    (findDollarParenGo content (content.length + 1) 0 false).map
      (fun p => (content.take p.2).drop (p.1 + 2))

/-- Model of `shellparse.extractInnerContent`. -/
def extractInnerContent (text : GoStr) (cmdType : CommandType) : GoStr :=
  if cmdType = .parenGroup then
    if text.length ≥ 2 ∧ text.headD ' ' = '(' ∧ text.getLastD ' ' = ')' then
      (text.drop 1).dropLast
    else text
  else if cmdType = .commandSubstitution then
    if text.length ≥ 3 ∧ text.headD ' ' = '$' ∧ text.getD 1 ' ' = '(' ∧ text.getLastD ' ' = ')' then
      (text.drop 2).dropLast
    else text
  else if cmdType = .backtickSubstitution then
    if text.length ≥ 2 ∧ text.headD ' ' = '`' ∧ text.getLastD ' ' = '`' then
      (text.drop 1).dropLast
    else text
  else text

end SP

namespace SP

open GoLib

/-- Operator detection chain of `shellparse.tokenize` (the Go `else if`
ladder over `;`, `&&`, `&`, `||`, `|`, `>>`, `>&`, `>`, `<<`, `<&`, `<`);
two-character operators require a following character. -/
def opAtSP (c : Char) (rest : GoStr) : GoStr :=
  if c = ';' then [';']
  else if c = '&' ∧ rest.headD ' ' = '&' then ['&', '&']
  else if c = '&' then ['&']
  else if c = '|' ∧ rest.headD ' ' = '|' then ['|', '|']
  else if c = '|' then ['|']
  else if c = '>' ∧ rest.headD ' ' = '>' then ['>', '>']
  else if c = '>' ∧ rest.headD ' ' = '&' then ['>', '&']
  else if c = '>' then ['>']
  else if c = '<' ∧ rest.headD ' ' = '<' then ['<', '<']
  else if c = '<' ∧ rest.headD ' ' = '&' then ['<', '&']
  else if c = '<' then ['<']
  else []

/-- Final part creation after the `tokenize` scan loop. -/
def scanFinish (content : GoStr) (current : GoStr) (lpe : Nat) : List ShellPart :=
  if current ≠ [] ∨ lpe < content.length then
    let rawText := if current = [] ∧ lpe < content.length then content.drop lpe else current
    [parseCommand { rawText := rawText }]
  else []

/-- The `shellparse.tokenize` scan loop.  State, in order: fuel, remaining
text (`content.drop i`), index `i`, current part, single-quote flag,
double-quote flag, parenthesis level, `lastPartEnd`, `groupStart`, current
type.  Returns the part list and the inner texts of the parenthesized
groups, in scan order (the children built from them is phase two).  The fuel
is the input length; every step advances by at least one character. -/
def scanGo (content : GoStr) :
    Nat → GoStr → Nat → GoStr → Bool → Bool → Nat → Nat → Option Nat → CommandType →
    List ShellPart × List GoStr
  | 0, _, _, current, _, _, _, lpe, _, _ => (scanFinish content current lpe, [])
  | _ + 1, [], _, current, _, _, _, lpe, _, _ => (scanFinish content current lpe, [])
  | f + 1, c :: rest, i, current, inS, inD, level, lpe, gs, ct =>
    if c = '\\' ∧ rest ≠ [] then
      scanGo content f rest.tail (i + 2) (current ++ [c, rest.headD ' ']) inS inD level lpe gs ct
    else if c = '"' ∧ ¬inS then
      scanGo content f rest (i + 1) (current ++ [c]) inS (¬inD) level lpe gs ct
    else if c = '\'' ∧ ¬inD then
      scanGo content f rest (i + 1) (current ++ [c]) (¬inS) inD level lpe gs ct
    else if c = '`' ∧ ¬inS then
      scanGo content f rest (i + 1) (current ++ [c]) inS inD level lpe gs ct
    else if c = '$' ∧ rest.headD ' ' = '(' ∧ ¬inS then
      scanGo content f rest.tail (i + 2) (current ++ [c, '(']) inS inD level lpe gs ct
    else if level = 0 ∧ ¬inS ∧ ¬inD ∧ c = '(' then
      let (flushed, current') :=
        if gs = none ∧ current ≠ [] then ([parseCommand { rawText := current }], ([] : GoStr))
        else ([], current)
      let gs' := if gs = none then some i else gs
      let ct' := if gs = none then CommandType.parenGroup else ct
      let (ps, gi) := scanGo content f rest (i + 1) (current' ++ [c]) inS inD (level + 1) lpe gs' ct'
      (flushed ++ ps, gi)
    else if level > 0 ∧ ¬inS ∧ ¬inD ∧ c = '(' then
      scanGo content f rest (i + 1) (current ++ [c]) inS inD (level + 1) lpe gs ct
    else if c = ')' ∧ level > 0 ∧ ¬inS ∧ ¬inD then
      let level' := level - 1
      let current' := current ++ [c]
      if level' = 0 ∧ gs ≠ none ∧ ct = .parenGroup then
        let part : ShellPart := { rawText := current', typ := ct }
        let inner := extractInnerContent current' ct
        let (ps, gi) := scanGo content f rest (i + 1) [] inS inD level' (i + 1) none .simple
        (part :: ps, inner :: gi)
      else scanGo content f rest (i + 1) current' inS inD level' lpe gs ct
    else if level = 0 ∧ ¬inS ∧ ¬inD ∧ opAtSP c rest ≠ [] then
      let op := opAtSP c rest
      let flushed :=
        if current ≠ [] ∨ i > lpe then
          let rawText := if current = [] ∧ i > lpe then (content.take i).drop lpe else current
          [parseCommand { rawText := rawText, delimiter := op }]
        else []
      let (ps, gi) :=
        scanGo content f ((c :: rest).drop op.length) (i + op.length) [] inS inD level
          (i + op.length) gs ct
      (flushed ++ ps, gi)
    else scanGo content f rest (i + 1) (current ++ [c]) inS inD level lpe gs ct

/-- Phase one of `shellparse.tokenize`. -/
def tokenizeScan (content : GoStr) : List ShellPart × List GoStr :=
  scanGo content (content.length + 1) content 0 [] false false 0 0 none .simple

/-- Model of `shellparse.tokenize`, fuel-indexed for the recursion into
children (each child text is strictly shorter than its parent, so the input
length bounds the nesting depth). -/
def tokenizeF : Nat → GoStr → List ShellPart × List ShellCommand
  | 0, _ => ([], [])
  | f + 1, content =>
    let (parts, groupInners) := tokenizeScan content
    let mkChild := fun (inner : GoStr) =>
      let (p, ch) := tokenizeF f inner
      ShellCommand.mk p ch inner
    (parts, groupInners.map mkChild ++ (findCommandSubstitutions content).map mkChild)

/-- Model of `shellparse.ParseShellLine`. -/
def ParseShellLine (content : GoStr) : ShellCommand :=
  if content = [] then .mk [] [] []
  else
    let (p, ch) := tokenizeF (content.length + 1) content
    .mk p ch content

/-- Model of `shellparse.(*ShellCommand).String` (returns the stored
original text). -/
def spString (sc : ShellCommand) : GoStr := sc.original

/-- Search loop of `Reconstruct` locating the delimiter inside the original
text from a given start index. -/
def delimSearchGo (delim : GoStr) : Nat → GoStr → Option Nat
  | _, [] => none
  | j, rem@(_ :: t) => if hasPref rem delim then some j else delimSearchGo delim (j + 1) t

/-- Delimiter rendering of `Reconstruct` in the line-continuation case:
re-discover the delimiter in the original text together with its surrounding
white space. -/
def delimTextFor (original : GoStr) (p : ShellPart) : GoStr :=
  let delimIdx :=
    match idxOf original p.rawText with
    | some k => k + p.rawText.length
    | none => p.rawText.length - 1
  if delimIdx < original.length then
    match delimSearchGo p.delimiter delimIdx (original.drop delimIdx) with
    | some j =>
      let beforeSpace := ((original.take j).reverse.takeWhile (fun c => c = ' ' ∨ c = '\t')).reverse
      let afterSpace := (original.drop (j + p.delimiter.length)).takeWhile
        (fun c => c = ' ' ∨ c = '\t' ∨ c = '\\' ∨ c = '\n')
      beforeSpace ++ p.delimiter ++ afterSpace
    | none => [' '] ++ p.delimiter ++ [' ']
  else [' '] ++ p.delimiter ++ [' ']

/-- Part-by-part loop of `Reconstruct` (a delimiter is emitted only between
parts, i.e. when `i < len(parts)-1`). -/
def reconstructParts (original : GoStr) (hasLC : Bool) : List ShellPart → GoStr
  | [] => []
  | [p] => p.rawText
  | p :: rest =>
    p.rawText ++
      (if p.delimiter ≠ [] then
        (if hasLC then delimTextFor original p else [' '] ++ p.delimiter ++ [' '])
      else []) ++
      reconstructParts original hasLC rest

/-- Model of `shellparse.(*ShellCommand).Reconstruct`. -/
def Reconstruct (sc : ShellCommand) : GoStr :=
  if sc.parts = [] then []
  else
    let hasLC := containsStr sc.original ['\\', '\n']
    let reconstructed := reconstructParts sc.original hasLC sc.parts
    if hasLC ∧ ¬containsStr reconstructed ['\\', '\n'] then
      replaceAll reconstructed [' ', '\n'] [' ', '\\', '\n']
    else reconstructed

/-- Model of `shellparse.extractCommandName`. -/
def extractCommandName (cmd : GoStr) : GoStr :=
  let cmd := trimLeftCut cmd [' ', '\t']
  let cmd := if cmd.contains '/' then (cmd.reverse.takeWhile (· ≠ '/')).reverse else cmd
  if containsStr cmd ['='] ∨ hasPref cmd ['-'] then [] else cmd

/-- Model of `shellparse.(*ShellCommand).FindAllCommands`, fuel-indexed over
the nesting depth (bounded by the original length, since every child text is
strictly shorter than its parent). -/
def findAllCmdsF : Nat → ShellCommand → GoStr → List ShellPart
  | 0, _, _ => []
  | f + 1, .mk parts children _, name =>
    parts.filter (fun p => extractCommandName p.command = name) ++
      (children.map (fun c => findAllCmdsF f c name)).flatten

/-- Entry point for `FindAllCommands`. -/
def FindAllCommands (sc : ShellCommand) (name : GoStr) : List ShellPart :=
  findAllCmdsF (sc.original.length + 1) sc name

/-- Model of `shellparse.(*ShellPart).GetFullCommand`. -/
def GetFullCommand (sp : ShellPart) : GoStr :=
  if sp.command = [] then sp.rawText
  else if sp.args = [] then sp.command
  else sp.command ++ [' '] ++ sp.args

/-- Model of `GetCommandsByExe`. -/
def GetCommandsByExe (sc : ShellCommand) (exeName : GoStr) : List GoStr :=
  (FindAllCommands sc exeName).map GetFullCommand

/-- Model of `GetCommandsByMultiExe`. -/
def GetCommandsByMultiExe (sc : ShellCommand) (exeNames : List GoStr) : List GoStr :=
  (exeNames.map (GetCommandsByExe sc)).flatten

/-- Model of `GetCommandsByExeAndSubcommand`. -/
def GetCommandsByExeAndSubcommand (sc : ShellCommand) (exeName sub : GoStr) : List GoStr :=
  (FindAllCommands sc exeName).filterMap (fun p =>
    if hasPref p.args sub ∧
        (p.args.length = sub.length ∨
          (p.args.length > sub.length ∧
            (p.args.getD sub.length ' ' = ' ' ∨ p.args.getD sub.length ' ' = '\t'))) then
      some (GetFullCommand p)
    else none)

/-- Model of `GetCommandsByMultiExeAndSubcommand`. -/
def GetCommandsByMultiExeAndSubcommand (sc : ShellCommand) (exeNames : List GoStr) (sub : GoStr) :
    List GoStr :=
  (exeNames.map (fun e => GetCommandsByExeAndSubcommand sc e sub)).flatten

end SP

/-!
Embedding of the conversion engine: `convertFromDirective`,
`convertRunDirective` and `rebuildRawRunLine` (part_019), and
`Dockerfile.Convert` (`pkg/dfc/dfc.go`).

The three regular expressions used by `rebuildRawRunLine` are modelled by
dedicated matchers.  Each matcher implements the leftmost-first greedy
semantics of Go's regexp engine for its one fixed pattern; the analysis of
the backtracking behaviour is recorded in the doc comments.
-/

namespace Dfc

open GoLib SP2

/-- Right curly brace character. -/
def braceR : Char := Char.ofNat 125

/-- Word-character class of RE2's `\w` (`[0-9A-Za-z_]`). -/
def isWordRE (c : Char) : Bool :=
  ('0' ≤ c ∧ c ≤ '9') ∨ ('a' ≤ c ∧ c ≤ 'z') ∨ ('A' ≤ c ∧ c ≤ 'Z') ∨ c = '_'

/-- Operator characters excluded by the class `[^&|;]`. -/
def isOpCh (c : Char) : Bool := c = '&' ∨ c = '|' ∨ c = ';'

/-- ASCII lower-casing for `(?i)` literal comparison. -/
def toLowerCh (c : Char) : Char :=
  if 'A' ≤ c ∧ c ≤ 'Z' then Char.ofNat (c.toNat + 32) else c

/-- Case-insensitive literal match of `pat` at the start of `s`. -/
def matchCI : GoStr → GoStr → Bool
  | _, [] => true
  | [], _ :: _ => false
  | c :: cs, p :: ps => toLowerCh c = toLowerCh p ∧ matchCI cs ps

/-- Common tail of the two clean-up patterns:
`(?:\s+[^&|;]+)?(\s*&&|\s*\|\|)?` applied to the text following `\w+`.
Returns the number of characters consumed and the text of the final capture
group.  The greedy optional middle group consumes the whole run of
non-operator characters whenever that run starts with white space and has at
least two characters (the required `\s+` and `[^&|;]+` both being
non-empty); the final group then needs `&&` or `||` immediately after an
optional white-space run. -/
def reTail (rest : GoStr) : Nat × GoStr :=
  let block := rest.takeWhile (fun c => ¬isOpCh c)
  let mid := if block.length ≥ 2 ∧ isWsRE (block.headD 'x') then block.length else 0
  let rest2 := rest.drop mid
  let v := (rest2.takeWhile isWsRE).length
  let after := rest2.drop v
  if hasPref after ['&', '&'] then (mid + v + 2, rest2.take v ++ ['&', '&'])
  else if hasPref after ['|', '|'] then (mid + v + 2, rest2.take v ++ ['|', '|'])
  else (mid, [])

/-- Match attempt, at the start of `s`, for the pattern
`(?i)RUN\s+<pm>\s+\w+(?:\s+[^&|;]+)?(\s*&&|\s*\|\|)?`.  Returns the match
length and the capture group.  All components are deterministic under
leftmost-first semantics: the white-space runs and the word run are maximal
(the following literal is never a member of the preceding class), and the
tail is handled by `reTail`. -/
def reRunPmAttempt (pm s : GoStr) : Option (Nat × GoStr) :=
  if ¬matchCI s "RUN".data then none
  else
    let s1 := s.drop 3
    let w1 := (s1.takeWhile isWsRE).length
    if w1 = 0 then none
    else
      let s2 := s1.drop w1
      if ¬matchCI s2 pm then none
      else
        let s3 := s2.drop pm.length
        let w2 := (s3.takeWhile isWsRE).length
        if w2 = 0 then none
        else
          let s4 := s3.drop w2
          let wd := (s4.takeWhile isWordRE).length
          if wd = 0 then none
          else
            let (tc, g) := reTail (s4.drop wd)
            some (3 + w1 + pm.length + w2 + wd + tc, g)

/-- `ReplaceAllString` scan for the `RUN`-anchored clean-up pattern with
replacement template `RUN$1`; fuel-driven (every step consumes at least one
character). -/
def reRunPmGo (pm : GoStr) : Nat → GoStr → GoStr
  | 0, s => s
  | f + 1, s =>
    match reRunPmAttempt pm s with
    | some (len, g) => "RUN".data ++ g ++ reRunPmGo pm f (s.drop len)
    | none =>
      match s with
      | [] => []
      | c :: rest => c :: reRunPmGo pm f rest

/-- Model of `regexp.MustCompile((?i)RUN\s+<pm>\s+\w+(?:\s+[^&|;]+)?(\s*&&|\s*\|\|)?).ReplaceAllString(s, "RUN$1")`. -/
def replaceRunPm (pm s : GoStr) : GoStr := reRunPmGo pm (s.length + 1) s

/-- Match attempt for the unanchored clean-up pattern
`(?i)(\s*&&|\s*\|\|)?\s*<pm>\s+\w+(?:\s+[^&|;]+)?(\s*&&|\s*\|\|)?`.  The
leading group is deterministic: an operator preceded by the maximal
white-space run is taken if present (the alternative with the group empty
would require the manager literal to start at the operator characters and
therefore fails whenever this branch fails). -/
def reMidPmAttempt (pm s : GoStr) : Option (Nat × GoStr × GoStr) :=
  let v1 := (s.takeWhile isWsRE).length
  let after1 := s.drop v1
  let (g1len, g1) :=
    if hasPref after1 ['&', '&'] then (v1 + 2, s.take v1 ++ ['&', '&'])
    else if hasPref after1 ['|', '|'] then (v1 + 2, s.take v1 ++ ['|', '|'])
    else (0, ([] : GoStr))
  let s1 := s.drop g1len
  let v2 := (s1.takeWhile isWsRE).length
  let s2 := s1.drop v2
  if ¬matchCI s2 pm then none
  else
    let s3 := s2.drop pm.length
    let w := (s3.takeWhile isWsRE).length
    if w = 0 then none
    else
      let s4 := s3.drop w
      let wd := (s4.takeWhile isWordRE).length
      if wd = 0 then none
      else
        let (tc, g2) := reTail (s4.drop wd)
        some (g1len + v2 + pm.length + w + wd + tc, g1, g2)

/-- `ReplaceAllString` scan for the unanchored clean-up pattern with
replacement template `$1$2`. -/
def reMidPmGo (pm : GoStr) : Nat → GoStr → GoStr
  | 0, s => s
  | f + 1, s =>
    match reMidPmAttempt pm s with
    | some (len, g1, g2) => g1 ++ g2 ++ reMidPmGo pm f (s.drop len)
    | none =>
      match s with
      | [] => []
      | c :: rest => c :: reMidPmGo pm f rest

/-- Model of the unanchored clean-up `ReplaceAllString` of
`rebuildRawRunLine`. -/
def replaceMidPm (pm s : GoStr) : GoStr := reMidPmGo pm (s.length + 1) s

/-- Leftmost match of `RUN\s*(?:&&|\|\|)\s*(.*)` (case-sensitive), returning
the capture group; `.` does not match a newline, and both white-space runs
are maximal. -/
def findRunOpRest : GoStr → Option GoStr
  | [] => none
  | s@(_ :: t) =>
    (if hasPref s "RUN".data then
      let s1 := s.drop 3
      let v := (s1.takeWhile isWsRE).length
      let s2 := s1.drop v
      if hasPref s2 ['&', '&'] ∨ hasPref s2 ['|', '|'] then
        let s3 := s2.drop 2
        let v2 := (s3.takeWhile isWsRE).length
        some ((s3.drop v2).takeWhile (· ≠ '\n'))
      else none
    else none).orElse (fun _ => findRunOpRest t)

/-- Match attempt for `(\$\{[^}]+\})\s*\\(\s*&&|\s*\|\|)` at the start of
`s`: a `${...}` reference, optional white space, a backslash, then an
operator with optional leading white space.  Returns the match length and
the two capture groups. -/
def dollarBraceAttempt (s : GoStr) : Option (Nat × GoStr × GoStr) :=
  match s with
  | '$' :: b :: rest =>
    if b = braceL then
      let inner := rest.takeWhile (· ≠ braceR)
      if inner = [] ∨ rest.drop inner.length = [] then none
      else
        let g1 := ['$', braceL] ++ inner ++ [braceR]
        let s1 := rest.drop (inner.length + 1)
        let v := (s1.takeWhile isWsRE).length
        let s2 := s1.drop v
        match s2 with
        | '\\' :: s3 =>
          let v2 := (s3.takeWhile isWsRE).length
          let s4 := s3.drop v2
          if hasPref s4 ['&', '&'] then
            some (g1.length + v + 1 + v2 + 2, g1, s3.take v2 ++ ['&', '&'])
          else if hasPref s4 ['|', '|'] then
            some (g1.length + v + 1 + v2 + 2, g1, s3.take v2 ++ ['|', '|'])
          else none
        | _ => none
    else none
  | _ => none

/-- `ReplaceAllString` scan for the `${...}\` orphan-backslash pattern with
replacement template `$1$2`. -/
def dollarBraceGo : Nat → GoStr → GoStr
  | 0, s => s
  | f + 1, s =>
    match dollarBraceAttempt s with
    | some (len, g1, g2) => g1 ++ g2 ++ dollarBraceGo f (s.drop len)
    | none =>
      match s with
      | [] => []
      | c :: rest => c :: dollarBraceGo f rest

/-- Entry point for the orphan-backslash regular expression. -/
def dollarBraceFix (s : GoStr) : GoStr := dollarBraceGo (s.length + 1) s

end Dfc

namespace Dfc

open GoLib SP2

/-- Model of the part_019 `ImageMapping` entry. -/
structure ImageMapping where
  source : GoStr := []
  target : GoStr := []
deriving DecidableEq, Repr

/-- Model of `dfc.Options` (organization, package map, image map).  The Go
maps are association lists here; Go map key lookup is deterministic. -/
structure Options where
  organization : GoStr := []
  packageMap : List (GoStr × List (GoStr × List GoStr)) := []
  imageMappings : List ImageMapping := []
deriving DecidableEq, Repr

/-- Association-list lookup modelling Go map indexing. -/
def lookupAssoc {α : Type} : List (GoStr × α) → GoStr → Option α
  | [], _ => none
  | (k, v) :: rest, key => if k = key then some v else lookupAssoc rest key

/-- Model of `isStageReference`. -/
def isStageReference (base : GoStr) (stageAliases : List GoStr) : Bool :=
  stageAliases.contains base

/-- Model of `findExactImageMatch` (first mapping whose source equals the
image; Go returns the empty string when there is none). -/
def findExactImageMatch (sourceImage : GoStr) (mappings : List ImageMapping) : GoStr :=
  match mappings.find? (fun m => m.source = sourceImage) with
  | some m => m.target
  | none => []

/-- ASCII lower-casing of a string (`strings.ToLower` fragment). -/
def toLowerGo (s : GoStr) : GoStr := s.map toLowerCh

/-- The `baseImages` table of `calculateImageMatchScore`. -/
def baseImages : List GoStr :=
  ["node".data, "nodejs".data, "python".data, "golang".data, "ruby".data, "php".data,
   "java".data, "openjdk".data, "alpine".data, "debian".data, "ubuntu".data,
   "fedora".data, "centos".data, "distroless".data, "nginx".data, "apache".data,
   "httpd".data, "mysql".data, "postgres".data, "redis".data, "mongodb".data,
   "mariadb".data, "memcached".data, "rabbitmq".data]

/-- Model of `calculateImageMatchScore` (the dead inner branch of the Go
code is kept as written). -/
def calculateImageMatchScore (sourceImage patternImage : GoStr) : Nat :=
  if sourceImage = patternImage then 1000
  else
    let score := 0
    let score := if containsStr sourceImage patternImage then score + 100 else score
    let score := if containsStr patternImage sourceImage then score + 50 else score
    let score := baseImages.foldl (fun sc base =>
      if containsStr sourceImage base ∧ containsStr patternImage base then sc + 75
      else if containsStr sourceImage base then
        if containsStr patternImage base then sc + 50 else sc
      else sc) score
    if containsStr sourceImage "distroless".data ∨ containsStr sourceImage "gcr.io/distroless".data then
      let score := if containsStr sourceImage "nodejs".data ∧ containsStr patternImage "node".data then score + 150 else score
      let score := if containsStr sourceImage "python".data ∧ containsStr patternImage "python".data then score + 150 else score
      if containsStr sourceImage "java".data ∧ containsStr patternImage "java".data then score + 150 else score
    else score

/-- Model of `findBestImageMatch` (highest score wins; earlier mappings win
ties). -/
def findBestImageMatch (sourceImage : GoStr) (mappings : List ImageMapping) : GoStr :=
  let lowerSourceImage := toLowerGo sourceImage
  let scored := mappings.filterMap (fun m =>
    if m.source = [] ∨ m.target = [] then none
    else
      let score := calculateImageMatchScore lowerSourceImage (toLowerGo m.source)
      if score > 0 then some (score, m.target) else none)
  (scored.foldl (fun best m => if m.1 > best.1 then m else best) (0, [])).2

/-- Model of `convertFromDirective` (part_019).  Returns the updated line
and the Go boolean result.  The Go code mutates `line.From` before the
`FROM ` anchor check, so a failed anchor still returns the updated details
with the original raw text. -/
def convertFromDirective (line : DockerfileLine) (opts : Options)
    (stageAliases : List GoStr) : DockerfileLine × Bool :=
  match line.fromD with
  | none => (line, false)
  | some f =>
    if f.baseDynamic ∨ isStageReference f.base stageAliases then (line, false)
    else
      let org := if opts.organization = [] then "ORGANIZATION".data else opts.organization
      let originalImage := f.base
      let targetBaseName :=
        if opts.imageMappings ≠ [] then
          let exactMatch := findExactImageMatch originalImage opts.imageMappings
          if exactMatch ≠ [] then exactMatch
          else findBestImageMatch originalImage opts.imageMappings
        else []
      let targetBaseName :=
        if targetBaseName = [] then
          let parts := splitOnCh '/' originalImage
          if parts.length > 1 then parts.getLastD [] else originalImage
        else targetBaseName
      let newBase := "cgr.dev/".data ++ org ++ ['/'] ++ targetBaseName
      let newTag :=
        if ¬f.tagDynamic then "latest".data
        else if ¬hasSuf f.tag "-dev".data then f.tag ++ "-dev".data
        else f.tag
      let f' := { f with base := newBase, tag := newTag }
      let newTagStr := if f'.tag ≠ [] then [':'] ++ f'.tag else []
      let asClause := if f'.aliasN ≠ [] then " AS ".data ++ f'.aliasN else []
      match idxOf line.raw "FROM ".data with
      | none => ({ line with fromD := some f' }, false)
      | some fromIndex =>
        let raw' := line.raw.take fromIndex ++ "FROM ".data ++ newBase ++ newTagStr ++ asClause
        ({ line with fromD := some f', raw := raw' }, true)

/-- Model of `modifiableFromLine` (`pkg/dfc/convert.go`): a FROM line with
details, a non-empty base, no parent stage (`Parent == 0`) and a
non-dynamic base. -/
def modifiableFromLine (directive : GoStr) (fromD : Option FromDetails) : Bool :=
  match fromD with
  | some f => directive = "FROM".data ∧ f.base ≠ [] ∧ f.parent = 0 ∧ ¬f.baseDynamic
  | none => false

/-- Model of `cmdToString` (part_019). -/
def cmdToString (n : Node) : GoStr := n.command ++ [':'] ++ joinStr [','] n.args

/-- String comparison used by Go's `slices.Sort` on `[]string`
(lexicographic byte order; the inputs here are ASCII). -/
def lexLe : GoStr → GoStr → Bool
  | [], _ => true
  | _ :: _, [] => false
  | a :: as', b :: bs => if a = b then lexLe as' bs else decide (a < b)

/-- Ordered insertion for the sorting model. -/
def insortOne (x : GoStr) : List GoStr → List GoStr
  | [] => [x]
  | y :: ys => if lexLe x y then x :: y :: ys else y :: insortOne x ys

/-- Model of `slices.Sort` on `[]string`: insertion sort by `lexLe`.  Any
correct comparison sort of strings produces the same list (equal strings
are indistinguishable), so this is extensionally the Go sort. -/
def sortGo (l : List GoStr) : List GoStr := l.foldr insortOne []

/-- Worker for `slices.Compact` (first element of every run of equals is
kept). -/
def compactAux (x : GoStr) : List GoStr → List GoStr
  | [] => [x]
  | y :: ys => if x = y then compactAux x ys else x :: compactAux y ys

/-- Model of `slices.Compact` on `[]string`. -/
def compactGo : List GoStr → List GoStr
  | [] => []
  | x :: xs => compactAux x xs

/-- Package-mapping loop of `convertRunDirective` (part_019 lines 302-313):
each package is replaced by its mapped names when the distro section has an
entry for it. -/
def mapPackagesGo (distroMap : Option (List (GoStr × List GoStr))) : List GoStr → List GoStr
  | [] => []
  | pkg :: rest =>
    match distroMap with
    | some m =>
      (match lookupAssoc m pkg with
       | some mappedPkgs => mappedPkgs ++ mapPackagesGo distroMap rest
       | none => pkg :: mapPackagesGo distroMap rest)
    | none => pkg :: mapPackagesGo distroMap rest

/-- The mapped, sorted and compacted package list of `convertRunDirective`
(part_019 lines 302-316): apply the package map, `slices.Sort`, then
`slices.Compact`. -/
def mapSortPackages (packageMap : List (GoStr × List (GoStr × List GoStr)))
    (distro : GoStr) (packages : List GoStr) : List GoStr :=
  compactGo (sortGo (mapPackagesGo (lookupAssoc packageMap distro) packages))

/-- The per-manager clean-up body of `rebuildRawRunLine` (executed only when
the raw line contains the manager name). -/
def pmCleanupStep (pm : GoStr) (raw : GoStr) : GoStr :=
  if containsStr raw pm then
    let raw :=
      if containsStr raw ("RUN ".data ++ pm) ∨ containsStr raw ("RUN\n".data ++ pm) then
        replaceRunPm pm raw
      else raw
    let raw := replaceMidPm pm raw
    let raw := replaceAll raw "&& &&".data "&&".data
    let raw := replaceAll raw "|| ||".data "||".data
    let raw := replaceAll raw "&&  &&".data "&&".data
    let raw := replaceAll raw "||  ||".data "||".data
    let raw := replaceAll raw "&&&&".data "&&".data
    let raw := replaceAll raw "||||".data "||".data
    let raw := replaceOne raw "RUN &&".data "RUN".data
    let raw := replaceOne raw "RUN ||".data "RUN".data
    collapseDoubleSpaces raw
  else raw

/-- The multi-line trailing-operator and trailing-backslash clean-up of
`rebuildRawRunLine` (part_019 lines 441-486). -/
def multilineFix (raw : GoStr) : GoStr :=
  let lines := splitOnCh '\n' raw
  if lines.length > 1 then
    let lastLine := trimSpace (lines.getLastD [])
    let (lines₁, raw₁) :=
      if lastLine = "&&".data ∨ lastLine = "||".data then
        (lines.dropLast, joinStr ['\n'] lines.dropLast)
      else if hasSuf lastLine " &&".data ∨ hasSuf lastLine " ||".data then
        let newLast := trimSpace (trimSuffixStr (trimSuffixStr lastLine " &&".data) " ||".data)
        let ls := lines.dropLast ++ [newLast]
        (ls, joinStr ['\n'] ls)
      else (lines, raw)
    if lines₁.length > 1 then
      let lastL := lines₁.getLastD []
      if trimSpace lastL = [] ∨ trimSpace lastL = ['\\'] then
        let ls := lines₁.dropLast
        let ls :=
          if ls ≠ [] then
            let newLast := trimRightCut (ls.getLastD []) [' ', '\t']
            if hasSuf newLast ['\\'] then ls.dropLast ++ [trimSuffixStr newLast ['\\']]
            else ls
          else ls
        joinStr ['\n'] ls
      else raw₁
    else raw₁
  else raw

/-- The per-line `%` clean-up of `rebuildRawRunLine`: strip a trailing `%`
from every word of a line containing one. -/
def percentFix (l : GoStr) : GoStr :=
  joinStr [' '] ((fields l).map (fun w => if hasSuf w ['%'] then trimSuffixStr w ['%'] else w))

/-- The per-line orphan-backslash clean-up of `rebuildRawRunLine`. -/
def backslashFix (l : GoStr) : GoStr :=
  let l := replaceAll l " \\ ".data " ".data
  let l :=
    if containsStr l ['$', braceL] ∧ containsStr l [braceR] then dollarBraceFix l
    else l
  collapseDoubleSpaces l

/-- The combined per-line clean-up loop of `rebuildRawRunLine` (lines
499-531).  The Go loop assigns `linesTmp[i]` from the unmodified range
variable in the backslash branch, so when a line contains both `%` and a
backslash the backslash branch wins and the `%` processing is discarded. -/
def lineCleanup (l : GoStr) : GoStr :=
  let l₁ := if containsStr l ['%'] then percentFix l else l
  if containsStr l ['\\'] then backslashFix l else l₁

/-- Package-manager command test of the resurrection block (part_019 lines
557-570); the Go iteration over the `PackageManagerGroups` map is a pure
existence check, so its unspecified order does not matter. -/
def isPMPart (part : GoStr) : Bool :=
  allGroupManagers.any (fun pm => hasPref part pm ∨ containsStr part ([' '] ++ pm ++ [' ']))

/-- Model of `rebuildRawRunLine` (part_019 lines 365-611).  Follows the Go
text step by step; the `PackageManagerGroups` iteration uses the fixed
`pmGroupsList` order (see its doc comment). -/
def rebuildRawRunLine (line : DockerfileLine) : DockerfileLine :=
  match line.run with
  | none => line
  | some r =>
    let cmdStr := scString r.command
    let cmdStr := replaceAll cmdStr " \\ && ".data " && ".data
    let cmdStr := replaceAll cmdStr " \\ || ".data " || ".data
    let cmdStr := replaceAll cmdStr "&&".data " && ".data
    let cmdStr := replaceAll cmdStr "||".data " || ".data
    let cmdStr := trimSpace cmdStr
    let cmdStr :=
      if hasPref cmdStr "&&".data then trimSpace (cmdStr.drop 2)
      else if hasPref cmdStr "||".data then trimSpace (cmdStr.drop 2)
      else cmdStr
    let cmdStr := collapseDoubleSpaces cmdStr
    let raw := "RUN ".data ++ cmdStr
    let raw := allGroupManagers.foldl (fun raw pm => pmCleanupStep pm raw) raw
    let raw := trimSpace raw
    let raw :=
      if hasSuf raw "&&".data then trimSpace (trimSuffixStr raw "&&".data)
      else if hasSuf raw "||".data then trimSpace (trimSuffixStr raw "||".data)
      else raw
    let raw := multilineFix raw
    let trimmed := trimSpace raw
    let raw :=
      if hasSuf trimmed ['\\'] then trimSpace (trimSuffixStr trimmed ['\\'])
      else if hasSuf trimmed ['%'] then trimSpace (trimSuffixStr trimmed ['%'])
      else raw
    let raw := joinStr ['\n'] ((splitOnCh '\n' raw).map lineCleanup)
    let trimmedRaw := trimSpace raw
    if trimmedRaw = "RUN".data ∨ trimmedRaw = "RUN &&".data ∨ trimmedRaw = "RUN ||".data ∨
        hasPref trimmedRaw "RUN&&".data then
      if r.packages ≠ [] then
        let pkgList := joinStr [' '] r.packages
        let rawCmdStr := scString r.command
        let cmdParts := splitOnStr "&&".data rawCmdStr
        let nonPMCmds := cmdParts.filterMap (fun part =>
          let part := trimSpace part
          if part = [] then none
          else if isPMPart part then none
          else some part)
        let otherCmds :=
          if nonPMCmds ≠ [] then " && ".data ++ joinStr " && ".data nonPMCmds else []
        let raw := "RUN ".data ++ "apk add -U".data ++ [' '] ++ pkgList ++ otherCmds
        let raw := replaceAll raw " \\ && ".data " && ".data
        let raw := replaceAll raw " \\ || ".data " || ".data
        { line with raw := raw }
      else
        let raw :=
          if trimSpace raw = "RUN".data ∨ trimSpace raw = "RUN ".data then "RUN true".data
          else if containsStr raw "&&".data ∨ containsStr raw "||".data then
            match findRunOpRest raw with
            | some m1 => if trimSpace m1 ≠ [] then "RUN ".data ++ m1 else "RUN true".data
            | none => "RUN true".data
          else raw
        let raw := replaceAll raw " \\ && ".data " && ".data
        let raw := replaceAll raw " \\ || ".data " || ".data
        { line with raw := raw }
    else { line with raw := raw }

/-- Model of `convertRunDirective` (part_019).  Pure rendition: the Go
in-place mutations of `line.Run.command` and `line.Run.Packages` become
functional updates (the pointer-aliasing consequences for the original
document are modelled separately below). -/
def convertRunDirective (line : DockerfileLine) (opts : Options) : DockerfileLine :=
  let distro := match line.run with | some r => r.distro | none => []
  match packageManagerGroups distro, line.run with
  | some distroPackageManagers, some r =>
    if distroPackageManagers = [] then line
    else
      let allManagerCmds :=
        (distroPackageManagers.map (fun pm => findCmdsByPref r.command pm)).flatten
      let installCmds :=
        (distroPackageManagers.map (fun pm =>
          findCmdsByPrefSub r.command pm (pmInfo pm).2)).flatten
      if allManagerCmds = [] then line
      else
        let packages := r.packages
        if packages = [] then
          let cmd' := allManagerCmds.foldl (fun c n => RemoveCommand c n) r.command
          rebuildRawRunLine { line with run := some { r with command := cmd' } }
        else
          let packages := mapSortPackages opts.packageMap distro packages
          let r := { r with packages := packages }
          let apkCmd := "apk add -U".data ++ [' '] ++ joinStr [' '] packages
          let cmd' :=
            if installCmds ≠ [] then
              let c₁ := ReplaceCommand r.command (installCmds.headD {}) apkCmd
              let c₂ := (installCmds.drop 1).foldl (fun c n => RemoveCommand c n) c₁
              let processed := installCmds.map cmdToString
              allManagerCmds.foldl (fun c n =>
                if processed.contains (cmdToString n) then c else RemoveCommand c n) c₂
            else
              let c₁ := ReplaceCommand r.command (allManagerCmds.headD {}) apkCmd
              (allManagerCmds.drop 1).foldl (fun c n => RemoveCommand c n) c₁
          rebuildRawRunLine { line with run := some { r with command := cmd' } }
  | _, _ => line

/-- The per-line deep copy of `Dockerfile.Convert` (`pkg/dfc/dfc.go` lines
203-243).  Every field is copied into a fresh structure except the shell
command, which the Go code reuses: `newCommand = line.Run.command` (the
source comment says a clone would be ideal). -/
def copyLine (line : DockerfileLine) : DockerfileLine :=
  { raw := line.raw
    extra := line.extra
    directive := line.directive
    stage := line.stage
    fromD := line.fromD.map (fun f =>
      { base := f.base, tag := f.tag, aliasN := f.aliasN, parent := f.parent,
        baseDynamic := f.baseDynamic, tagDynamic := f.tagDynamic })
    run := line.run.map (fun r =>
      { command := r.command, distro := r.distro, packages := r.packages }) }

/-- Model of `dfc.(*Dockerfile).Convert`: copy the document, then convert
FROM and RUN lines in place. -/
def Convert (d : Dockerfile) (opts : Options) : Dockerfile :=
  let newDf : Dockerfile := { lines := d.lines.map copyLine, stageAliases := d.stageAliases }
  { newDf with
    lines := newDf.lines.map (fun l =>
      if l.directive = "FROM".data then (convertFromDirective l opts newDf.stageAliases).1
      else if l.directive = "RUN".data then convertRunDirective l opts
      else l) }

end Dfc

/-!
Embedding of the earlier generation of the dfc package kept in the source
tree: `parse`, `extractTopLevel` and `extractFrom` (part_018 first half,
paired with the part_015 data model whose `DockerfileLine` carries
`Content`/`Converted` fields and whose `RunDetails` wraps a `shellparse`
command).  `modifiableFromLine` (`pkg/dfc/convert.go`) belongs to this
generation: it consults the `Parent` field that only `extractFrom` sets.
-/

namespace DfcOld

open GoLib Dfc

/-- Model of the part_015 `RunDetails`. -/
structure RunDetailsO where
  distro : GoStr := []
  packages : List GoStr := []
  command : Option SP.ShellCommand := none

/-- Model of the part_015 `DockerfileLine`. -/
structure DockerfileLineO where
  raw : GoStr := []
  converted : GoStr := []
  directive : GoStr := []
  extra : GoStr := []
  content : GoStr := []
  stage : Nat := 0
  fromD : Option FromDetails := none
  runD : Option RunDetailsO := none

/-- Model of the part_015 `Dockerfile`. -/
structure DockerfileO where
  lines : List DockerfileLineO := []

/-- Letter class of `[A-Za-z]`. -/
def isLetterRE (c : Char) : Bool := ('A' ≤ c ∧ c ≤ 'Z') ∨ ('a' ≤ c ∧ c ≤ 'z')

/-- Model of `extractTopLevel`, i.e. of the anchored pattern
`(?s)^\s*(?P<directive>[A-Za-z]+)\s+(?P<command>.*)$`: leading white space,
a maximal letter run, at least one white-space character, then the rest.
The directive is upper-cased; on no match both results are empty. -/
def extractTopLevel (raw : GoStr) : GoStr × GoStr :=
  let s1 := raw.dropWhile isWsRE
  let letters := s1.takeWhile isLetterRE
  if letters = [] then ([], [])
  else
    let s2 := s1.drop letters.length
    let ws := s2.takeWhile isWsRE
    if ws = [] then ([], [])
    else (toUpperGo letters, s2.drop ws.length)

/-- Model of `hasContinuationRegex` (`(?m).*\\\s*$`) applied to one physical
line: the line ends with a backslash followed only by white space. -/
def hasContinuation (raw : GoStr) : Bool := hasSuf (trimRightF raw isWsRE) ['\\']

/-- Word-boundary test after a literal: the next character must not be a
word character. -/
def boundaryAfter (l : GoStr) : Bool :=
  match l with
  | [] => true
  | c :: _ => ¬isWordRE c

/-- Single match attempt, at the start of `s`, for
`(?P<base>[^\s]+)\s+\bAS?\b\s+(?P<alias>[^\s]+).*` (case-sensitive).
`[^\s]+` and the white-space runs are maximal (each is followed by a
character outside its class); `AS?` greedily tries `AS` first and falls back
to `A`, each requiring a word boundary after it; the trailing `.*` imposes
no constraint. -/
def attemptFromRe (s : GoStr) : Option (GoStr × GoStr) :=
  let base := s.takeWhile (fun c => ¬isWsRE c)
  if base = [] then none
  else
    let s1 := s.drop base.length
    let w := (s1.takeWhile isWsRE).length
    if w = 0 then none
    else
      let afterAS := fun (rest2 : GoStr) =>
        let w2 := (rest2.takeWhile isWsRE).length
        if w2 = 0 then none
        else
          let al := (rest2.drop w2).takeWhile (fun c => ¬isWsRE c)
          if al = [] then none else some (base, al)
      match s1.drop w with
      | 'A' :: rest =>
        (match rest with
         | 'S' :: rest2 =>
           if boundaryAfter rest2 then afterAS rest2
           else if boundaryAfter rest then afterAS rest else none
         | _ => if boundaryAfter rest then afterAS rest else none)
      | _ => none

/-- Leftmost-match scan for `fromRegex`, returning the base and alias
captures. -/
def fromReGo : GoStr → Option (GoStr × GoStr)
  | [] => none
  | s@(_ :: t) =>
    match attemptFromRe s with
    | some r => some r
    | none => fromReGo t

/-- Model of `fromNoAliasRegex` (`(?P<base>[^\s]+).*`): the first non-white
run, or empty when there is none (no match). -/
def fromNoAliasBase (content : GoStr) : GoStr :=
  (content.dropWhile isWsRE).takeWhile (fun c => ¬isWsRE c)

/-- Insertion with overwrite for the `seenAliases` map. -/
def insertAssoc : List (GoStr × Nat) → GoStr → Nat → List (GoStr × Nat)
  | [], k, v => [(k, v)]
  | (k', v') :: rest, k, v =>
    if k' = k then (k, v) :: rest else (k', v') :: insertAssoc rest k v

/-- Model of `extractFrom` (part_018 first half).  The stage counter is
incremented first; when the alias-style pattern matches, the alias is
registered at the new stage and the parent is looked up for the full base
text (tag included); when it does not match, the no-alias pattern supplies
the base and the parent is never set.  Returns the details, the new stage
and the updated alias map. -/
def extractFrom (content : GoStr) (stage : Nat) (seenAliases : List (GoStr × Nat)) :
    FromDetails × Nat × List (GoStr × Nat) :=
  let stage := stage + 1
  let (base₀, al, parent, aliases) :=
    match fromReGo content with
    | some (baseM, aliasM) =>
      let aliases := insertAssoc seenAliases aliasM stage
      let parent := (lookupAssoc aliases baseM).getD 0
      (baseM, aliasM, parent, aliases)
    | none => (fromNoAliasBase content, [], 0, seenAliases)
  let (base, tag) :=
    if base₀ ≠ [] then
      match splitN2 ':' base₀ with
      | [b, t] => (b, t)
      | _ => (base₀, ([] : GoStr))
    else (base₀, [])
  ({ base := base, aliasN := al, tag := tag, parent := parent,
     baseDynamic := containsStr base ['$'], tagDynamic := containsStr tag ['$'] },
   stage, aliases)

/-- Model of `extractPackagesFromCommands` (part_018 first half): for each
command, find the install keyword, then collect the non-flag words after
it. -/
def extractPackagesFromCommands (commands : List GoStr) : List GoStr :=
  (commands.map (fun cmd =>
    let parts := fields cmd
    match parts.findIdx? (fun p => p = "install".data ∨ p = "add".data) with
    | some cmdIndex =>
      if cmdIndex + 1 ≥ parts.length then []
      else (parts.drop (cmdIndex + 1)).filter (fun p => ¬hasPref p ['-'])
    | none => [])).flatten

/-- Model of the first-half `extractRun`.  In this generation
`AllPackageManagers` is populated from a map and its order is unspecified;
the fixed `Dfc.AllPackageManagers` order is used here, which coincides for
every input whose line mentions at most one manager family (all inputs
evaluated below mention none). -/
def extractRunOld (content : GoStr) : RunDetailsO :=
  let cmd := SP.ParseShellLine content
  let detected :=
    AllPackageManagers.find? (fun pm => SP.GetCommandsByMultiExe cmd [pm] ≠ [])
  let distro :=
    match detected with
    | some pm => (pmInfo pm).1
    | none => []
  let distro := if distro = [] then "unknown".data else distro
  let packages :=
    match packageManagerGroups distro with
    | some pms =>
      let pkgs := (pms.map (fun pm =>
        extractPackagesFromCommands
          (SP.GetCommandsByMultiExeAndSubcommand cmd [pm] (pmInfo pm).2))).flatten
      compactGo (sortGo pkgs)
    | none => []
  { distro := distro, packages := packages, command := some cmd }

/-- The trivia-append branch of the old `parse`: glue the raw text (and,
for directive lines, the extra text) onto the last parsed line. -/
def appendExtraToLast (lines : List DockerfileLineO) (piece : GoStr) : List DockerfileLineO :=
  match lines.getLast? with
  | none => lines
  | some last =>
    let last := { last with raw := last.raw ++ piece }
    let last := if last.directive ≠ [] then { last with extra := last.extra ++ piece } else last
    lines.dropLast ++ [last]

/-- Loop state of the old `parse`. -/
structure OState where
  lines : List DockerfileLineO := []
  stage : Nat := 0
  aliases : List (GoStr × Nat) := []
  prev : GoStr := []

/-- One iteration of the old `parse` loop. -/
def parseOldStep (rawIn : GoStr) (st : OState) : OState :=
  if hasContinuation rawIn then
    { st with prev := if st.prev = [] then rawIn else st.prev ++ ['\n'] ++ rawIn }
  else
    let raw := if st.prev ≠ [] then st.prev ++ ['\n'] ++ rawIn else rawIn
    let st := { st with prev := [] }
    let (directive, content) := extractTopLevel raw
    if directive = [] ∧ st.lines.isEmpty = false then
      { st with lines := appendExtraToLast st.lines (['\n'] ++ raw) }
    else
      let dl : DockerfileLineO := { raw := raw, directive := directive, content := content }
      let (dl, stage', aliases') :=
        if directive = "FROM".data then
          let (f, stg, als) := extractFrom content st.stage st.aliases
          ({ dl with fromD := some f }, stg, als)
        else if directive = "RUN".data then
          ({ dl with runD := some (extractRunOld content) }, st.stage, st.aliases)
        else (dl, st.stage, st.aliases)
      let dl := { dl with stage := stage' }
      { st with lines := st.lines ++ [dl], stage := stage', aliases := aliases' }

/-- The old `parse` loop. -/
def parseOldLoop : List GoStr → OState → OState
  | [], st => st
  | l :: ls, st => parseOldLoop ls (parseOldStep l st)

/-- Model of the old `parse` entry point (a pending continuation at end of
input is silently dropped, as in the Go code). -/
def parseOld (b : GoStr) : DockerfileO :=
  { lines := (parseOldLoop (splitOnCh '\n' b) {}).lines }

end DfcOld

/-!
Aliasing model for `Dockerfile.Convert` (claim C4).  The Go copy loop reuses
the shell-command pointer (`newCommand = line.Run.command`), and
`convertRunDirective` then mutates that shared structure through
`ReplaceCommand`/`RemoveCommand`.  Consequently the ORIGINAL document's
`RunDetails.command` is the converted command after `Convert` returns, while
all its other fields keep their parsed values.  `originalAfterConvert`
computes that post-`Convert` view of the input document.
-/

namespace Dfc

/-- The command value held by the shared cell after `Convert` has processed
the line (the converted line's command, when the line is a RUN line with
details). -/
def convertedCommandOf (line : DockerfileLine) (opts : Options) : Option SP2.ShellCommand :=
  let l' :=
    if line.directive = "RUN".data then convertRunDirective (copyLine line) opts
    else copyLine line
  l'.run.map (fun r => r.command)

/-- The input document as observed after `Convert` returns: identical except
that every RUN line's shell command shows the in-place mutations made
through the aliased pointer. -/
def originalAfterConvert (d : Dockerfile) (opts : Options) : Dockerfile :=
  { d with
    lines := d.lines.map (fun l =>
      { l with
        run :=
          match l.run, convertedCommandOf l opts with
          | some r, some c => some { r with command := c }
          | r, _ => r }) }

end Dfc

/-!
Concrete documents used to evaluate the conversion pipeline.  Each is the
value of `ParseDockerfile` (or of `Convert`) on a fixed input, written out
as a literal so that the pipeline can be evaluated in stages: the parse
result is verified against the literal once, and `Convert` is then applied
to the literal rather than to the unevaluated parse term.
-/

namespace Dfc

open SP2

/-- Literal command node (parts are the command followed by the
arguments). -/
def litCmdNode (c : GoStr) (as : List GoStr) (rawN preN : GoStr) : Node :=
  { typ := .command, command := c, args := as, parts := c :: as, raw := rawN,
    indent := [], lineBrk := [], pref := preN, suf := [] }

/-- Literal operator node. -/
def litOpNode (rawN : GoStr) : Node :=
  { typ := .operator, command := [], args := [], parts := [], raw := rawN,
    indent := [], lineBrk := [], pref := [], suf := [] }

/-- `ParseDockerfile "RUN apt-get update || apt-get install -y nginx || foo"`. -/
def exDocOps : Dockerfile :=
  { lines :=
      [{ raw := "RUN apt-get update || apt-get install -y nginx || foo".data
         extra := []
         directive := "RUN".data
         stage := 0
         fromD := none
         run := some
           { distro := "debian".data
             packages := ["nginx".data]
             command :=
               { rootNode :=
                   [ litCmdNode "apt-get".data ["update".data] "apt-get update ".data []
                   , litOpNode "||".data
                   , litCmdNode "apt-get".data ["install".data, "-y".data, "nginx".data]
                       " apt-get install -y nginx ".data [' ']
                   , litOpNode "||".data
                   , litCmdNode "foo".data [] " foo".data [' '] ]
                 raw := "apt-get update || apt-get install -y nginx || foo".data } } }]
    stageAliases := [] }

/-- `ParseDockerfile "RUN apt-get install -y nginx curl"`. -/
def exDocInstall : Dockerfile :=
  { lines :=
      [{ raw := "RUN apt-get install -y nginx curl".data
         extra := []
         directive := "RUN".data
         stage := 0
         fromD := none
         run := some
           { distro := "debian".data
             packages := ["nginx".data, "curl".data]
             command :=
               { rootNode :=
                   [ litCmdNode "apt-get".data
                       ["install".data, "-y".data, "nginx".data, "curl".data]
                       "apt-get install -y nginx curl".data [] ]
                 raw := "apt-get install -y nginx curl".data } } }]
    stageAliases := [] }

/-- `Convert exDocInstall {}`: the install command is replaced by
`apk add -U curl nginx` while the shell command's `raw` field keeps the
original parse text. -/
def exDocInstallConv : Dockerfile :=
  { lines :=
      [{ raw := "RUN apk add -U curl nginx".data
         extra := []
         directive := "RUN".data
         stage := 0
         fromD := none
         run := some
           { distro := "debian".data
             packages := ["curl".data, "nginx".data]
             command :=
               { rootNode :=
                   [ litCmdNode "apk".data
                       ["add".data, "-U".data, "curl".data, "nginx".data]
                       "apk add -U curl nginx".data [] ]
                 raw := "apt-get install -y nginx curl".data } } }]
    stageAliases := [] }

/-- `ParseDockerfile "RUN apk add -U nginx"`. -/
def exDocApkU : Dockerfile :=
  { lines :=
      [{ raw := "RUN apk add -U nginx".data
         extra := []
         directive := "RUN".data
         stage := 0
         fromD := none
         run := some
           { distro := "alpine".data
             packages := ["nginx".data]
             command :=
               { rootNode :=
                   [ litCmdNode "apk".data ["add".data, "-U".data, "nginx".data]
                       "apk add -U nginx".data [] ]
                 raw := "apk add -U nginx".data } } }]
    stageAliases := [] }

/-- `ParseDockerfile "RUN apk add nginx"`: the skip-two extraction leaves no
packages (`add` and `nginx` are both skipped). -/
def exDocApkPlain : Dockerfile :=
  { lines :=
      [{ raw := "RUN apk add nginx".data
         extra := []
         directive := "RUN".data
         stage := 0
         fromD := none
         run := some
           { distro := "alpine".data
             packages := []
             command :=
               { rootNode :=
                   [ litCmdNode "apk".data ["add".data, "nginx".data]
                       "apk add nginx".data [] ]
                 raw := "apk add nginx".data } } }]
    stageAliases := [] }

end Dfc

/-!
Order-theoretic facts about the sorting model used by
`convertRunDirective`: `lexLe` is a total preorder with antisymmetry,
insertion sort produces a `lexLe`-sorted list, and `slices.Compact` on a
sorted list produces a strictly sorted (hence duplicate-free) list.
-/

namespace Dfc

/-- The empty string is below everything. -/
theorem lexLe_nil (b : GoStr) : lexLe [] b = true := rfl

/-- Totality of `lexLe`. -/
theorem lexLe_total : ∀ a b : GoStr, lexLe a b = true ∨ lexLe b a = true := by
  intro a
  induction a with
  | nil => intro b; left; rfl
  | cons x xs ih =>
    intro b
    cases b with
    | nil => right; rfl
    | cons y ys =>
      by_cases hxy : x = y
      · subst hxy
        rcases ih ys with h | h
        · left; simpa [lexLe] using h
        · right; simpa [lexLe] using h
      · rcases lt_or_gt_of_ne hxy with h | h
        · left; simp [lexLe, hxy, h]
        · right; simp [lexLe, Ne.symm hxy, h]

/-- Transitivity of `lexLe`. -/
theorem lexLe_trans : ∀ a b c : GoStr, lexLe a b = true → lexLe b c = true → lexLe a c = true := by
  intro a
  induction a with
  | nil => intro b c _ _; rfl
  | cons x xs ih =>
    intro b c hab hbc
    cases b with
    | nil => simp [lexLe] at hab
    | cons y ys =>
      cases c with
      | nil => simp [lexLe] at hbc
      | cons z zs =>
        by_cases hxy : x = y <;> by_cases hyz : y = z
        · subst hxy; subst hyz
          simp only [lexLe, if_pos rfl] at hab hbc ⊢
          exact ih ys zs hab hbc
        · subst hxy
          simp only [lexLe, if_pos rfl] at hab
          simpa [lexLe, hyz] using hbc
        · subst hyz
          simpa [lexLe, hxy] using hab
        · simp only [lexLe, if_neg hxy, decide_eq_true_eq] at hab
          simp only [lexLe, if_neg hyz, decide_eq_true_eq] at hbc
          have hxz : x < z := lt_trans hab hbc
          simp [lexLe, ne_of_lt hxz, hxz]

/-- Antisymmetry of `lexLe`. -/
theorem lexLe_antisymm : ∀ a b : GoStr, lexLe a b = true → lexLe b a = true → a = b := by
  intro a
  induction a with
  | nil =>
    intro b _ hba
    cases b with
    | nil => rfl
    | cons y ys => simp [lexLe] at hba
  | cons x xs ih =>
    intro b hab hba
    cases b with
    | nil => simp [lexLe] at hab
    | cons y ys =>
      by_cases hxy : x = y
      · subst hxy
        simp only [lexLe, if_pos rfl] at hab hba
        rw [ih ys hab hba]
      · simp only [lexLe, if_neg hxy, decide_eq_true_eq] at hab
        simp only [lexLe, if_neg (Ne.symm hxy), decide_eq_true_eq] at hba
        exact absurd hba (lt_asymm hab)

/-- Membership in an ordered insertion. -/
theorem mem_insortOne : ∀ (l : List GoStr) (x z : GoStr), z ∈ insortOne x l ↔ z = x ∨ z ∈ l := by
  intro l
  induction l with
  | nil => intro x z; simp [insortOne]
  | cons y ys ih =>
    intro x z
    by_cases h : lexLe x y = true
    · simp only [insortOne, if_pos h, List.mem_cons]
      try tauto
    · simp only [insortOne, if_neg h, List.mem_cons, ih]
      try tauto

/-- Ordered insertion preserves sortedness. -/
theorem pairwise_insortOne (x : GoStr) :
    ∀ l : List GoStr, List.Pairwise (fun a b => lexLe a b = true) l →
      List.Pairwise (fun a b => lexLe a b = true) (insortOne x l) := by
  intro l
  induction l with
  | nil => intro _; simp [insortOne]
  | cons y ys ih =>
    intro h
    rcases List.pairwise_cons.mp h with ⟨hy, hys⟩
    by_cases hxy : lexLe x y = true
    · simp only [insortOne, if_pos hxy]
      refine List.pairwise_cons.mpr ⟨?_, h⟩
      intro z hz
      rcases List.mem_cons.mp hz with rfl | hz
      · exact hxy
      · exact lexLe_trans x y z hxy (hy z hz)
    · simp only [insortOne, if_neg hxy]
      refine List.pairwise_cons.mpr ⟨?_, ih hys⟩
      intro z hz
      rcases (mem_insortOne ys x z).mp hz with rfl | hz
      · rcases lexLe_total z y with h' | h'
        · exact absurd h' hxy
        · exact h'
      · exact hy z hz

/-- Insertion sort produces a `lexLe`-sorted list. -/
theorem pairwise_sortGo : ∀ l : List GoStr,
    List.Pairwise (fun a b => lexLe a b = true) (sortGo l) := by
  intro l
  induction l with
  | nil => simp [sortGo]
  | cons x xs ih => exact pairwise_insortOne x (sortGo xs) ih

/-- Members of a compacted run come from the head or the tail. -/
theorem mem_compactAux : ∀ (l : List GoStr) (x z : GoStr),
    z ∈ compactAux x l → z = x ∨ z ∈ l := by
  intro l
  induction l with
  | nil => intro x z hz; simp [compactAux] at hz; exact Or.inl hz
  | cons y ys ih =>
    intro x z hz
    by_cases hxy : x = y
    · simp only [compactAux, if_pos hxy] at hz
      rcases ih x z hz with rfl | hz
      · exact Or.inl rfl
      · exact Or.inr (List.mem_cons_of_mem y hz)
    · simp only [compactAux, if_neg hxy] at hz
      rcases List.mem_cons.mp hz with rfl | hz
      · exact Or.inl rfl
      · rcases ih y z hz with h' | hz
        · exact Or.inr (h' ▸ List.mem_cons_self z ys)
        · exact Or.inr (List.mem_cons_of_mem y hz)

/-- Compacting a sorted run yields a strictly sorted list. -/
theorem pairwise_compactAux : ∀ (l : List GoStr) (x : GoStr),
    List.Pairwise (fun a b => lexLe a b = true) (x :: l) →
      List.Pairwise (fun a b => lexLe a b = true ∧ a ≠ b) (compactAux x l) := by
  intro l
  induction l with
  | nil => intro x _; simp [compactAux]
  | cons y ys ih =>
    intro x h
    rcases List.pairwise_cons.mp h with ⟨hx, hp⟩
    rcases List.pairwise_cons.mp hp with ⟨hy, hys⟩
    by_cases hxy : x = y
    · subst hxy
      simp only [compactAux, if_pos rfl]
      exact ih x (List.pairwise_cons.mpr ⟨fun z hz => hx z (List.mem_cons_of_mem x hz), hys⟩)
    · simp only [compactAux, if_neg hxy]
      refine List.pairwise_cons.mpr ⟨?_, ih y hp⟩
      intro z hz
      rcases mem_compactAux ys y z hz with rfl | hz
      · exact ⟨hx z (List.mem_cons_self z ys), hxy⟩
      · refine ⟨hx z (List.mem_cons_of_mem y hz), ?_⟩
        intro hxz
        subst hxz
        exact hxy (lexLe_antisymm x y (hx y (List.mem_cons_self y ys)) (hy x hz))

/-- Compacting a sorted list yields a strictly sorted list. -/
theorem pairwise_compactGo : ∀ l : List GoStr,
    List.Pairwise (fun a b => lexLe a b = true) l →
      List.Pairwise (fun a b => lexLe a b = true ∧ a ≠ b) (compactGo l) := by
  intro l h
  cases l with
  | nil => simp [compactGo]
  | cons x xs => exact pairwise_compactAux xs x h

end Dfc

/-!
Round-trip lemmas for the parser and serializer: splitting undoes joining
for newline-free lines, the parse loop turns a list of recognised
single-line directives into lines with empty trivia, and the serializer
re-joins such lines with single newlines.
-/

namespace GoLib

/-- Splitting a separator-free string yields the singleton list. -/
theorem splitOnCh_no_sep (c : Char) : ∀ s : GoStr, (∀ ch ∈ s, ch ≠ c) → splitOnCh c s = [s] := by
  intro s
  induction s with
  | nil => intro _; rfl
  | cons x xs ih =>
    intro h
    have hx : x ≠ c := h x (List.mem_cons_self x xs)
    have hxs := ih (fun ch hch => h ch (List.mem_cons_of_mem x hch))
    simp only [splitOnCh, if_neg hx, hxs]

/-- Splitting peels off a separator-free chunk before a separator. -/
theorem splitOnCh_append_sep (c : Char) :
    ∀ s rest : GoStr, (∀ ch ∈ s, ch ≠ c) →
      splitOnCh c (s ++ c :: rest) = s :: splitOnCh c rest := by
  intro s
  induction s with
  | nil =>
    intro rest _
    simp [splitOnCh]
  | cons x xs ih =>
    intro rest h
    have hx : x ≠ c := h x (List.mem_cons_self x xs)
    have hxs := ih rest (fun ch hch => h ch (List.mem_cons_of_mem x hch))
    simp [splitOnCh, hx, hxs]

/-- Splitting on newlines inverts joining with newlines, for newline-free
pieces. -/
theorem splitOnCh_join_nl : ∀ ls : List GoStr, ls ≠ [] → (∀ l ∈ ls, ∀ ch ∈ l, ch ≠ '\n') →
    splitOnCh '\n' (joinStr ['\n'] ls) = ls := by
  intro ls
  induction ls with
  | nil => intro h; exact absurd rfl h
  | cons l rest ih =>
    intro _ h
    cases rest with
    | nil =>
      exact splitOnCh_no_sep '\n' l (h l (List.mem_cons_self l []))
    | cons l' rest' =>
      have hj : joinStr ['\n'] (l :: l' :: rest') = l ++ '\n' :: joinStr ['\n'] (l' :: rest') := by
        simp [joinStr]
      rw [hj, splitOnCh_append_sep '\n' l _ (h l (List.mem_cons_self l _)),
        ih (by simp) (fun m hm => h m (List.mem_cons_of_mem l hm))]

end GoLib

namespace Dfc

open GoLib

/-- Projection to the serialization-relevant fields of a line. -/
def lineRE (dl : DockerfileLine) : GoStr × GoStr := (dl.raw, dl.extra)

/-- A successfully parsed line keeps its raw text verbatim, has empty
trivia, and is neither blank nor a comment. -/
theorem parseDockerfileLine_some (l : GoStr) (dl : DockerfileLine)
    (h : parseDockerfileLine l = some dl) :
    dl.raw = l ∧ dl.extra = [] ∧ ¬(trimSpace l = [] ∨ hasPref (trimSpace l) ['#'] = true) := by
  unfold parseDockerfileLine at h
  dsimp only at h
  split_ifs at h with h1 h2 h3
  · refine ⟨?_, ?_, h1⟩ <;> (injection h with h'; rw [← h'])
  · refine ⟨?_, ?_, h1⟩ <;> (injection h with h'; rw [← h'])

/-- One parse step on a recognised, continuation-free directive line:
the clean-state invariant is preserved and exactly one line with empty
trivia is appended. -/
theorem parseStep_simple (n : Nat) (l : GoStr) (s : PState)
    (hm : s.curMulti = none) (he : s.hasExtra = false)
    (hb : s.blankLines = [])
    (dl : DockerfileLine) (hdl : parseDockerfileLine l = some dl)
    (hcont : hasSuf (trimSpace l) ['\\'] = false) :
    (parseStep n l s).curMulti = none ∧
    (parseStep n l s).hasExtra = false ∧
    (parseStep n l s).blankLines = [] ∧
    (parseStep n l s).lines.map lineRE = s.lines.map lineRE ++ [(l, [])] := by
  obtain ⟨hraw, hextra, hnb⟩ := parseDockerfileLine_some l dl hdl
  unfold parseStep
  rw [hm]
  dsimp only
  rw [if_neg hnb, hdl]
  dsimp only
  rw [hb, he, hcont]
  simp [lineRE, hraw, hextra]
  split_ifs <;> simp [lineRE, hraw, hextra]

/-- The parse loop over recognised, continuation-free directive lines. -/
theorem parseLoop_simple : ∀ (ls : List GoStr) (n : Nat) (s : PState),
    s.curMulti = none → s.hasExtra = false → s.blankLines = [] →
    (∀ l ∈ ls, (parseDockerfileLine l).isSome = true ∧ hasSuf (trimSpace l) ['\\'] = false) →
    (parseLoop n ls s).curMulti = none ∧
    (parseLoop n ls s).hasExtra = false ∧
    (parseLoop n ls s).lines.map lineRE =
      s.lines.map lineRE ++ ls.map (fun l => (l, ([] : GoStr))) := by
  intro ls
  induction ls with
  | nil =>
    intro n s hm he _ _
    exact ⟨hm, he, by simp [parseLoop]⟩
  | cons l rest ih =>
    intro n s hm he hb hls
    obtain ⟨hsome, hcont⟩ := hls l (List.mem_cons_self l rest)
    obtain ⟨dl, hdl⟩ := Option.isSome_iff_exists.mp hsome
    obtain ⟨h1, h2, h3, h4⟩ := parseStep_simple n l s hm he hb dl hdl hcont
    have hloop : parseLoop n (l :: rest) s = parseLoop (n + 1) rest (parseStep n l s) := rfl
    obtain ⟨g1, g2, g3⟩ :=
      ih (n + 1) (parseStep n l s) h1 h2 h3 (fun m hmem => hls m (List.mem_cons_of_mem l hmem))
    refine ⟨hloop ▸ g1, hloop ▸ g2, ?_⟩
    rw [hloop, g3, h4]
    simp

/-- Parsing a newline-join of recognised single-line directives yields
exactly those lines, each with empty trivia. -/
theorem ParseDockerfile_simple (ls : List GoStr) (hne : ls ≠ [])
    (hnl : ∀ l ∈ ls, ∀ ch ∈ l, ch ≠ '\n')
    (h : ∀ l ∈ ls, (parseDockerfileLine l).isSome = true ∧ hasSuf (trimSpace l) ['\\'] = false) :
    (ParseDockerfile (joinStr ['\n'] ls)).lines.map lineRE =
      ls.map (fun l => (l, ([] : GoStr))) := by
  unfold ParseDockerfile
  rw [splitOnCh_join_nl ls hne hnl]
  obtain ⟨g1, g2, g3⟩ := parseLoop_simple ls 1 {} rfl rfl rfl h
  simp only [g1, g2]
  simpa using g3

/-- The rendering of a line depends only on its raw text and trivia. -/
theorem renderLine_re (dl dl' : DockerfileLine) (b : Bool) (h : lineRE dl = lineRE dl') :
    renderLine dl b = renderLine dl' b := by
  obtain ⟨h1, h2⟩ := Prod.mk.injEq _ _ _ _ ▸ h
  simp only [renderLine, h1, h2]

/-- The serializer depends only on each line's raw text and trivia. -/
theorem renderLines_re : ∀ dls dls' : List DockerfileLine,
    dls.map lineRE = dls'.map lineRE → renderLines dls = renderLines dls' := by
  intro dls
  induction dls with
  | nil =>
    intro dls' h
    have h' : dls'.map lineRE = [] := by simpa using h.symm
    rw [List.map_eq_nil_iff.mp h']
  | cons l rest ih =>
    intro dls' h
    cases dls' with
    | nil => simp at h
    | cons l' rest' =>
      simp only [List.map_cons, List.cons.injEq] at h
      obtain ⟨hl, hr⟩ := h
      cases rest with
      | nil =>
        have h' : rest'.map lineRE = [] := by simpa using hr.symm
        have : rest' = [] := List.map_eq_nil_iff.mp h'
        subst this
        exact renderLine_re l l' true hl
      | cons r rs =>
        cases rest' with
        | nil => simp at hr
        | cons r' rs' =>
          show renderLine l false ++ renderLines (r :: rs) =
            renderLine l' false ++ renderLines (r' :: rs')
          rw [renderLine_re l l' false hl, ih (r' :: rs') hr]

/-- Lines with empty trivia serialize to their raw texts joined with single
newlines. -/
theorem renderLines_no_extra : ∀ dls : List DockerfileLine,
    (∀ dl ∈ dls, dl.extra = []) →
      renderLines dls = joinStr ['\n'] (dls.map (fun dl => dl.raw)) := by
  intro dls
  induction dls with
  | nil => intro _; rfl
  | cons l rest ih =>
    intro h
    have hl : l.extra = [] := h l (List.mem_cons_self l rest)
    cases rest with
    | nil =>
      show renderLine l true = _
      simp [renderLine, hl, joinStr]
    | cons r rs =>
      show renderLine l false ++ renderLines (r :: rs) = _
      rw [ih (fun dl hdl => h dl (List.mem_cons_of_mem l hdl))]
      simp [renderLine, hl, joinStr]

/-- Round trip for documents made of recognised single-line directives. -/
theorem dfString_roundtrip_simple (ls : List GoStr) (hne : ls ≠ [])
    (hnl : ∀ l ∈ ls, ∀ ch ∈ l, ch ≠ '\n')
    (h : ∀ l ∈ ls, (parseDockerfileLine l).isSome = true ∧ hasSuf (trimSpace l) ['\\'] = false) :
    dfString (ParseDockerfile (joinStr ['\n'] ls)) = joinStr ['\n'] ls := by
  have hmap := ParseDockerfile_simple ls hne hnl h
  have hre : (ParseDockerfile (joinStr ['\n'] ls)).lines.map lineRE =
      (ls.map (fun l => ({ raw := l } : DockerfileLine))).map lineRE := by
    rw [hmap, List.map_map]
    rfl
  unfold dfString
  rw [renderLines_re _ _ hre,
    renderLines_no_extra _ (by intro dl hdl; simp at hdl; obtain ⟨l, _, rfl⟩ := hdl; rfl)]
  rw [List.map_map]
  have hid : ((fun dl : DockerfileLine => dl.raw) ∘ fun l : GoStr => ({ raw := l } : DockerfileLine)) = id := by
    funext l
    rfl
  rw [hid, List.map_id]

/-- A parse step on a blank-free, comment-free but unrecognised line leaves
a clean state unchanged: the line is dropped. -/
theorem parseStep_none (n : Nat) (l : GoStr)
    (hne : ¬(trimSpace l = [] ∨ hasPref (trimSpace l) ['#'] = true))
    (hnone : parseDockerfileLine l = none) (s : PState) (hm : s.curMulti = none) :
    parseStep n l s = s := by
  unfold parseStep
  rw [hm]
  dsimp only
  rw [if_neg hne, hnone]

/-- A one-line input whose keyword is unrecognised parses to a document with
no lines at all. -/
theorem ParseDockerfile_drops_unrecognized (l : GoStr)
    (hnl : ∀ ch ∈ l, ch ≠ '\n')
    (hne : ¬(trimSpace l = [] ∨ hasPref (trimSpace l) ['#'] = true))
    (hnone : parseDockerfileLine l = none) :
    (ParseDockerfile l).lines = [] := by
  unfold ParseDockerfile
  rw [splitOnCh_no_sep '\n' l hnl]
  have h1 : parseLoop 1 [l] {} = ({} : PState) := by
    show parseLoop 2 [] (parseStep 1 l {}) = {}
    rw [parseStep_none 1 l hne hnone {} rfl]
    rfl
  rw [h1]
  rfl

end Dfc

namespace SP

/-- The parser stores the input verbatim as the `Original` field, and
`String()` returns it: serialization of an unmodified tree via `String` is
the identity on the input. -/
theorem spString_ParseShellLine (content : GoStr) : spString (ParseShellLine content) = content := by
  unfold ParseShellLine spString
  split_ifs with h
  · rw [h]
    rfl
  · rcases htok : tokenizeF (content.length + 1) content with ⟨p, ch⟩
    simp [htok, ShellCommand.original]

end SP

/-!
Staged evaluations of the conversion pipeline: each parse result equals the
corresponding literal document, and `Convert` maps the literal documents as
stated.  Splitting the pipeline at these literals keeps every kernel
reduction small.
-/

namespace Dfc

set_option maxRecDepth 8192

/-- The operator-chain example parses to its literal document. -/
theorem parse_exDocOps :
    ParseDockerfile "RUN apt-get update || apt-get install -y nginx || foo".data
      = exDocOps := by
  decide

/-- The install example parses to its literal document. -/
theorem parse_exDocInstall :
    ParseDockerfile "RUN apt-get install -y nginx curl".data = exDocInstall := by
  decide

/-- The `apk add -U` example parses to its literal document. -/
theorem parse_exDocApkU :
    ParseDockerfile "RUN apk add -U nginx".data = exDocApkU := by
  decide

/-- The flagless `apk add` example parses to its literal document. -/
theorem parse_exDocApkPlain :
    ParseDockerfile "RUN apk add nginx".data = exDocApkPlain := by
  decide

/-- Converting the install document replaces the install command. -/
theorem convert_exDocInstall : Convert exDocInstall {} = exDocInstallConv := by
  decide

/-- Converting the converted install document changes nothing. -/
theorem convert_exDocInstallConv : Convert exDocInstallConv {} = exDocInstallConv := by
  decide

end Dfc

/-!
The claims.  Each claim of the specification is settled by the theorem (and,
for refuted claims, the counterexample theorem) named after it below.
-/

namespace Dfc

open GoLib SP2

set_option maxRecDepth 8192

/-- Claim C1, counterexample: the serializer emits one more blank line than
the input held.  The input has two blank lines between the directives, the
output has three (`Dockerfile.String` appends a newline to the previous
block and then one per recorded blank line). -/
theorem c1_blank_lines_inflated :
    dfString (ParseDockerfile "FROM a\n\n\nRUN b".data) = "FROM a\n\n\n\nRUN b".data := by
  decide

/-- Claim C1 (corrected): the round trip `to_text(parse(text)) = text` does
hold for documents made of newline-free, recognised, non-continued directive
lines — but not for inputs with interior blank lines, whose count is not
preserved. -/
theorem c1_roundtrip_simple_lines (ls : List GoStr) (hne : ls ≠ [])
    (hnl : ∀ l ∈ ls, ∀ ch ∈ l, ch ≠ '\n')
    (h : ∀ l ∈ ls, (parseDockerfileLine l).isSome = true ∧ hasSuf (trimSpace l) ['\\'] = false) :
    dfString (ParseDockerfile (joinStr ['\n'] ls)) = joinStr ['\n'] ls :=
  dfString_roundtrip_simple ls hne hnl h

/-- Concrete instance of the corrected claim C1 round trip. -/
theorem c1_roundtrip_simple_lines_witness :
    dfString (ParseDockerfile (joinStr ['\n'] ["FROM alpine".data, "RUN echo hi".data]))
      = joinStr ['\n'] ["FROM alpine".data, "RUN echo hi".data] :=
  c1_roundtrip_simple_lines ["FROM alpine".data, "RUN echo hi".data]
    (by decide) (by decide) (by decide)

/-- Claim C2, counterexample: both rewriting serializers normalise operator
spacing instead of reproducing the input.  `shellparse.Reconstruct` turns
`a&&b` into `a && b` (adjacent operator, no surrounding whitespace), and the
`shellparse2` `String` method turns `a && b` into `a&& b` (the first
node's space is folded into the operator's prefix and dropped). -/
theorem c2_operator_spacing_normalized :
    SP.Reconstruct (SP.ParseShellLine "a&&b".data) = "a && b".data ∧
    SP2.scString (SP2.NewShellCommand "a && b".data) = "a&& b".data := by
  decide

/-- Claim C2 (corrected): the identity serialization contract holds only for
the `shellparse` `String()` method, which returns the stored original text
verbatim for every input; the reconstruction serializers are not
byte-exact. -/
theorem c2_spString_identity (content : GoStr) :
    SP.spString (SP.ParseShellLine content) = content :=
  SP.spString_ParseShellLine content

/-- Claim C3 (code bug): extraction skips the first two arguments after the
command name unconditionally, so the spec's Debian example is extracted as
promised, but in `RUN apk add python3 nginx` the package `python3` is
swallowed by the skip (there is no flag to absorb it) and only `nginx`
remains. -/
theorem c3_skip_two_drops_first_package :
    (extractRun "RUN apt-get install -y nginx curl".data).map
        (fun r => (r.distro, r.packages))
      = some ("debian".data, ["nginx".data, "curl".data]) ∧
    (extractRun "RUN apk add python3 nginx".data).map
        (fun r => (r.distro, r.packages))
      = some ("alpine".data, ["nginx".data]) := by
  decide

/-- Claim C4 (code bug): `Convert` copies every line field except the shell
command, which is aliased (`newCommand = line.Run.command`), and the
conversion then mutates that shared structure: after `Convert` the original
document's run command serializes as the converted `apk add -U curl nginx`
command, so the input document is not left unchanged. -/
theorem c4_convert_mutates_input :
    (originalAfterConvert (ParseDockerfile "RUN apt-get install -y nginx curl".data) {}).lines.map
        (fun l => l.run.map (fun r => SP2.scString r.command))
      = [some "apk add -U curl nginx".data] ∧
    originalAfterConvert (ParseDockerfile "RUN apt-get install -y nginx curl".data) {}
      ≠ ParseDockerfile "RUN apt-get install -y nginx curl".data := by
  rw [parse_exDocInstall]
  exact ⟨by decide, by decide⟩

/-- Claim C5, counterexample: `extractFrom` records a parent only in the
alias branch.  In the spec's own example the second line keeps the zero
value `Parent = 0`, identical to the first line's unset parent; when the
alias branch does record a parent for a reference to the first stage it
stores 1, not 0; and `modifiableFromLine` therefore classifies the plain
stage reference `FROM builder` as rewritable. -/
theorem c5_parent_never_recorded :
    ((DfcOld.parseOld "FROM golang:1.18 AS builder\nFROM builder".data).lines.map
        (fun l => l.fromD.map (fun f => f.parent))) = [some 0, some 0] ∧
    ((DfcOld.parseOld "FROM golang:1.18 AS builder\nFROM builder AS b2".data).lines.map
        (fun l => l.fromD.map (fun f => f.parent))) = [some 0, some 1] ∧
    modifiableFromLine "FROM".data
        (((DfcOld.parseOld "FROM golang:1.18 AS builder\nFROM builder".data).lines.getLastD
          {}).fromD)
      = true := by
  decide

/-- Claim C5 (corrected): the shipped pipeline protects stage references not
through a parent field but through the document's stage-alias set:
`ParseDockerfile` records the alias `builder`, and `Convert` rewrites the
aliased first FROM line while leaving the stage reference `FROM builder`
untouched. -/
theorem c5_stage_reference_guard :
    (Convert (ParseDockerfile "FROM golang:1.18 AS builder\nFROM builder".data) {}).lines.map
        (fun l => l.raw)
      = ["FROM cgr.dev/ORGANIZATION/golang:latest AS builder".data, "FROM builder".data] ∧
    (ParseDockerfile "FROM golang:1.18 AS builder\nFROM builder".data).stageAliases
      = ["builder".data] := by
  decide

set_option maxHeartbeats 1000000

/-- Claim C6 (code bug): a RUN line whose package-manager segments are
removed can keep a leading `||` operator.  The rebuilt line here is
`RUN|| foo` — the resurrection check looks for `RUN`, `RUN &&`, `RUN ||`
and the `RUN&&` prefix, but not the `RUN||` prefix — and the output also
contains no install command even though a package (`nginx`) was
extracted. -/
theorem c6_rebuild_leading_operator :
    (Convert (ParseDockerfile "RUN apt-get update || apt-get install -y nginx || foo".data)
        {}).lines.map (fun l => l.raw)
      = ["RUN|| foo".data] := by
  rw [parse_exDocOps]
  decide

set_option maxHeartbeats 200000

/-- Claim C7, counterexample: a line whose directive keyword is not in the
recognised list is dropped by `ParseDockerfile` — the parsed document has no
lines and serializes to the empty string, not to the input line. -/
theorem c7_unrecognized_dropped :
    (ParseDockerfile "FOO bar".data).lines = [] ∧
    dfString (ParseDockerfile "FOO bar".data) = [] := by
  decide

/-- Claim C7 (corrected): the parser is total and never fails, but a
non-blank, non-comment line whose keyword `parseDockerfileLine` does not
recognise is dropped from the document rather than retained as an
other-directive line. -/
theorem c7_drop_unrecognized_general (l : GoStr)
    (hnl : ∀ ch ∈ l, ch ≠ '\n')
    (hne : ¬(trimSpace l = [] ∨ hasPref (trimSpace l) ['#'] = true))
    (hnone : parseDockerfileLine l = none) :
    (ParseDockerfile l).lines = [] :=
  ParseDockerfile_drops_unrecognized l hnl hne hnone

/-- Concrete instance of the corrected claim C7 statement. -/
theorem c7_drop_unrecognized_general_witness :
    (ParseDockerfile "FOO bar".data).lines = [] :=
  c7_drop_unrecognized_general "FOO bar".data (by decide) (by decide) (by decide)

/-- Claim C8, counterexample: a document already using the target package
manager is rewritten again.  `RUN apk add nginx` extracts no packages (the
skip-two heuristic swallows `nginx`), so conversion removes the apk command
and replaces the line with the no-op `RUN true`. -/
theorem c8_target_pm_rewritten :
    dfString (Convert (ParseDockerfile "RUN apk add nginx".data) {}) = "RUN true".data := by
  rw [parse_exDocApkPlain]
  decide

/-- Claim C8 (corrected): converting twice produces no further textual
change on the converted install document (the second pass finds no Debian
package-manager command and leaves the document as it is), and an `apk add`
command whose packages survive extraction (`RUN apk add -U nginx`) is
reproduced verbatim rather than duplicated. -/
theorem c8_convert_idempotent_examples :
    dfString (Convert (Convert (ParseDockerfile "RUN apt-get install -y nginx curl".data) {}) {})
      = dfString (Convert (ParseDockerfile "RUN apt-get install -y nginx curl".data) {}) ∧
    dfString (Convert (ParseDockerfile "RUN apk add -U nginx".data) {})
      = "RUN apk add -U nginx".data := by
  constructor
  · rw [parse_exDocInstall, convert_exDocInstall, convert_exDocInstallConv]
  · rw [parse_exDocApkU]
    decide

/-- Claim C9, counterexample: `FROM node:$\x7bVERSION\x7d` is not left
identical — only the base being dynamic disables conversion, so the line is
rewritten to the Chainguard image with the dynamic tag preserved and `-dev`
appended. -/
theorem c9_dynamic_tag_rewritten :
    (Convert (ParseDockerfile "FROM node:$\x7bVERSION\x7d".data) {}).lines.map (fun l => l.raw)
      = ["FROM cgr.dev/ORGANIZATION/node:$\x7bVERSION\x7d-dev".data] := by
  decide

/-- Claim C9 (corrected): a FROM line with a dynamic base is left identical,
while a dynamic tag alone does not protect the line: the base is rewritten
and the tag becomes `$\x7bVERSION\x7d-dev`. -/
theorem c9_dynamic_base_guard :
    (Convert (ParseDockerfile "FROM $\x7bIMG\x7d".data) {}).lines.map (fun l => l.raw)
      = ["FROM $\x7bIMG\x7d".data] ∧
    (Convert (ParseDockerfile "FROM node:$\x7bVERSION\x7d".data) {}).lines.map (fun l => l.raw)
      = ["FROM cgr.dev/ORGANIZATION/node:$\x7bVERSION\x7d-dev".data] := by
  decide

/-- Claim C10 (confirmed): the package list that `convertRunDirective`
embeds in the generated `apk add -U` command is
`mapSortPackages packageMap distro packages`, and for every input that list
is strictly sorted in ascending lexicographic order — in particular free of
duplicates (`slices.Sort` followed by `slices.Compact`). -/
theorem c10_packages_sorted_compact (packageMap : List (GoStr × List (GoStr × List GoStr)))
    (distro : GoStr) (packages : List GoStr) :
    List.Pairwise (fun a b => lexLe a b = true ∧ a ≠ b)
      (mapSortPackages packageMap distro packages) := by
  unfold mapSortPackages
  exact pairwise_compactGo _ (pairwise_sortGo _)

end Dfc
